import Mathlib

/-!
Verification of the Shearer Data Analysis App core against its specification.

The development shallowly embeds the two core stages of the pipeline:

* the multi-source merge engine (`src/util/file_util.py`:
  `merge_batch`, `merge_database_files`, `get_database_filepaths`),
* the incident message decoding engine (`src/data/incident_manager.py`:
  `IncidentManager._insert_arguments`, `_check_for_user`, `get_incident_color`,
  `clean_data`),
* the timezone normalizer (`src/util/time_util.py`: `enter_time_zone_offset`)
  and the offset-resolution logic of `src/core/workflow_manager.py`.

Python strings are embedded as `List Char`; Python `int` as `Int`/`Nat`;
Python exceptions as `Except PyErr`; the SQLite engine as an explicit
state machine over an abstract file system.  Several helper functions are
written with an explicit fuel argument so that they are structurally
recursive and hence reduce inside the kernel (`decide`/`rfl`).
-/

namespace Shearer

/-! ## Python string primitives -/

/-- Value of a decimal digit character (models how `int` reads one digit). -/
def digitVal (c : Char) : Nat := c.toNat - 48

/-- Model of Python `int(s)` on a nonempty string of decimal digits
(`s` comes from a `\d+` regex group, so it has no sign and no spaces). -/
def parseNatAux : List Char → Nat → Nat
  | [], acc => acc
  | c :: rest, acc => parseNatAux rest (acc * 10 + digitVal c)

def parseNat (s : List Char) : Nat := parseNatAux s 0

/-- Fuel-driven core of decimal printing: emits the digits of `n`
most-significant first; `[]` for `n = 0`.  The fuel only needs to be at
least the number of digits; callers pass `n` itself. -/
def natReprAux : Nat → Nat → List Char
  | 0, _ => []
  | fuel + 1, n => if n = 0 then [] else natReprAux fuel (n / 10) ++ [Nat.digitChar (n % 10)]

/-- Model of Python `str(n)` for a natural number. -/
def natRepr (n : Nat) : List Char := if n = 0 then ['0'] else natReprAux n n

/-- Model of Python `str(z)` for an integer. -/
def intRepr : Int → List Char
  | Int.ofNat n => natRepr n
  | Int.negSucc n => '-' :: natRepr (n + 1)

/-- Model of Python `str.zfill(w)`: left-pad with `'0'` to total width `w`,
keeping a leading sign in place. -/
def zfill (s : List Char) (w : Nat) : List Char :=
  if w ≤ s.length then s
  else
    match s with
    | '-' :: rest => '-' :: (List.replicate (w - s.length) '0' ++ rest)
    | '+' :: rest => '+' :: (List.replicate (w - s.length) '0' ++ rest)
    | _ => List.replicate (w - s.length) '0' ++ s

/-- Fuel-driven model of Python `str.replace(old, new)` (all
non-overlapping occurrences, left to right, the replacement is not
rescanned).  The fuel only needs to be at least `s.length`. -/
def strReplaceFuel (old new : List Char) : Nat → List Char → List Char
  | _, [] => []
  | 0, s => s
  | fuel + 1, c :: rest =>
    if old ≠ [] ∧ old.isPrefixOf (c :: rest) then
      new ++ strReplaceFuel old new fuel (rest.drop (old.length - 1))
    else
      c :: strReplaceFuel old new fuel rest

/-- Model of Python `s.replace(old, new)` for nonempty `old` (every use in
the source has a nonempty pattern). -/
def strReplace (s old new : List Char) : List Char := strReplaceFuel old new s.length s

/-- Model of Python `needle in hay` on strings (substring test). -/
def isSubstr (needle : List Char) : List Char → Bool
  | [] => needle.isEmpty
  | c :: rest => needle.isPrefixOf (c :: rest) || isSubstr needle rest

/-- Substring test on `String`s, as used on file paths. -/
def strContains (hay needle : String) : Bool := isSubstr needle.data hay.data

/-- Model of Python `s.split(" ")`: split on every single space character,
keeping empty pieces. -/
def splitOnSpace : List Char → List (List Char)
  | [] => [[]]
  | c :: rest =>
    if c = ' ' then [] :: splitOnSpace rest
    else
      match splitOnSpace rest with
      | w :: ws => (c :: w) :: ws
      | [] => [[c]]

/-- Model of Python `part[:-n]` for `n > 0`: drop the last `n` characters. -/
def stripSuffixLen (s : List Char) (n : Nat) : List Char := s.take (s.length - n)

/-! ## Regex models

Each regular expression the source applies is modelled by a dedicated
scanner implementing exactly that pattern's Python semantics (leftmost
match, maximal digit runs, non-overlapping `findall`).  `\d` is modelled
as the ASCII digits and `[a-zA-Z]` as the ASCII letters, which is what the
decoded templates contain. -/

/-- Fuel-driven model of `re.findall(r"%[^%]*", word)`: every maximal run
starting with `%` followed by non-`%` characters.  Text before the first
`%` belongs to no match and is dropped, exactly as in the source, which
joins only the matches back together. -/
def findPercentRunsFuel : Nat → List Char → List (List Char)
  | 0, _ => []
  | _, [] => []
  | fuel + 1, c :: rest =>
    if c = '%' then
      ('%' :: rest.takeWhile (fun x => x ≠ '%')) ::
        findPercentRunsFuel fuel (rest.dropWhile (fun x => x ≠ '%'))
    else findPercentRunsFuel fuel rest

def findPercentRuns (s : List Char) : List (List Char) := findPercentRunsFuel s.length s

/-- Model of `re.search(r"%.*?([a-zA-Z])(\d+)", part)` restricted to its
groups: the first letter that is immediately followed by a digit, paired
with the maximal digit run after it.  (The pattern's leading `%` always
matches because every part produced by `findPercentRuns` starts with `%`
and contains no further `%`.) -/
def findLetterDigits : List Char → Option (Char × List Char)
  | [] => none
  | [_] => none
  | a :: b :: rest =>
    if a.isAlpha ∧ b.isDigit then some (a, (b :: rest).takeWhile Char.isDigit)
    else findLetterDigits (b :: rest)

/-- Model of `re.search(r"%(\d+)d", part)` restricted to group 1: the
digit run of the leftmost occurrence of `%`, one or more digits, `d`. -/
def findPctDigitsD : List Char → Option (List Char)
  | [] => none
  | c :: rest =>
    if c = '%' then
      let run := rest.takeWhile Char.isDigit
      if run ≠ [] ∧ (rest.drop run.length).headD ' ' = 'd' then some run
      else findPctDigitsD rest
    else findPctDigitsD rest

/-- Model of `re.search(r"%\.(\d+)f", part)` restricted to group 1. -/
def findPctDotDigitsF : List Char → Option (List Char)
  | [] => none
  | c :: rest =>
    match c, rest with
    | '%', '.' :: r2 =>
      let run := r2.takeWhile Char.isDigit
      if run ≠ [] ∧ (r2.drop run.length).headD ' ' = 'f' then some run
      else findPctDotDigitsF rest
    | _, _ => findPctDotDigitsF rest

/-- Fuel-driven model of `re.findall(r"User \d+", text)`: leftmost,
non-overlapping matches, each `"User "` followed by a maximal digit run. -/
def findUserMatchesFuel : Nat → List Char → List (List Char)
  | 0, _ => []
  | _, [] => []
  | fuel + 1, c :: rest =>
    let s := c :: rest
    if ('U' :: 's' :: 'e' :: 'r' :: [' ']).isPrefixOf s then
      let after := s.drop 5
      let run := after.takeWhile Char.isDigit
      if run = [] then findUserMatchesFuel fuel rest
      else ('U' :: 's' :: 'e' :: 'r' :: ' ' :: run) ::
        findUserMatchesFuel fuel (after.drop run.length)
    else findUserMatchesFuel fuel rest

def findUserMatches (s : List Char) : List (List Char) := findUserMatchesFuel s.length s

/-- Fuel-driven model of `re.findall(r"\d+", s)`: the maximal digit runs. -/
def findDigitRunsFuel : Nat → List Char → List (List Char)
  | 0, _ => []
  | _, [] => []
  | fuel + 1, c :: rest =>
    if c.isDigit then
      let run := (c :: rest).takeWhile Char.isDigit
      run :: findDigitRunsFuel fuel ((c :: rest).dropWhile Char.isDigit)
    else findDigitRunsFuel fuel rest

def findDigitRuns (s : List Char) : List (List Char) := findDigitRunsFuel s.length s

/-- `re.findall(r"\d+", s)[0]` as used on a `"User \d+"` match (always
nonempty there). -/
def firstDigitRun (s : List Char) : List Char := (findDigitRuns s).headD []

/-! ## Incident message decoding engine (`src/data/incident_manager.py`)

`IncidentManager.text_dic` is embedded as `Int → Option (List Char)`
(Python `dict.get` returning `None` on a miss).  The user directory query
`DatabaseManager.find_user_id` is embedded as `Nat → Option (List Char)`;
SQLite's integer affinity converts the digit-string parameter to the
integer key, hence the `Nat` key obtained with `parseNat`.

A raw argument (one element of the JSON `args` array) carries the three
fields named by `INCIDENT_ARGUMENTS` in `src/config/incident_config.py`.
The `realValue` field is a Python float; floating-point values never
decide any claim here, so the embedding is parametric in the type `R` of
reals together with the two formatting functions the source applies to
them (`str(x)` and `f"{x:.Pf}"`). -/

/-- Python exceptions that the decoding code can raise. -/
inductive PyErr where
  /-- `IndexError`: `args[0]` on an exhausted argument list. -/
  | indexError : PyErr
  /-- `TypeError`: `str.replace` or `html.unescape` applied to `None`. -/
  | typeError : PyErr
  /-- `AttributeError`: `None.split(" ")` when the base template is missing. -/
  | attributeError : PyErr
deriving DecidableEq, Repr

/-- One element of an entry's `args` list (`INCIDENT_ARGUMENTS` fields). -/
structure PyArg (R : Type) where
  longValue : Int
  stringTidxValue : Int
  realValue : R
deriving DecidableEq, Repr

/-- A text dictionary: `IncidentManager.text_dic.get`. -/
abbrev TextDic := Int → Option (List Char)

/-- The user directory: `DatabaseManager.find_user_id` restricted to the
returned `user_name` (`none` when the query has no rows). -/
abbrev UserDir := Nat → Option (List Char)

/-- The positional-suffix block of `_insert_arguments` (lines 102-122):
search `%.*?([a-zA-Z])(\d+)`; when the digit group's value equals the
running counter, strip the digits (or digits-then-dot) from the end of
the part and increment the counter. -/
def suffixAdjust (part : List Char) (count : Nat) : List Char × Nat :=
  match findLetterDigits part with
  | some (_, ds) =>
    let v := parseNat ds
    if v = count then
      let p :=
        if (natRepr v).isSuffixOf part then
          stripSuffixLen part (natRepr v).length
        else if ((natRepr v) ++ ['.']).isSuffixOf part then
          stripSuffixLen part ((natRepr v).length + 1) ++ ['.']
        else part
      (p, count + 1)
    else (part, count)
  | none => (part, count)

/-- The `d`/`s`/`f` dispatch of `_insert_arguments` (lines 124-177):
render the (suffix-adjusted) part, consuming one argument from the front
of the list, or raise. -/
def renderToken (R : Type) (reprR : R → List Char) (fmtR : R → Nat → List Char)
    (dic : TextDic) (part : List Char) (args : List (PyArg R)) :
    Except PyErr (List Char × List (PyArg R)) :=
  if part.contains 'd' then
    match findPctDigitsD part with
    | some w =>
      let part := strReplace part w []
      match args with
      | [] => Except.error PyErr.indexError
      | a :: rest =>
        Except.ok (strReplace part ['%', 'd'] (zfill (intRepr a.longValue) (parseNat w)),
          rest)
    | none =>
      match args with
      | [] => Except.error PyErr.indexError
      | a :: rest =>
        Except.ok (strReplace part ['%', 'd'] (intRepr a.longValue), rest)
  else if part.contains 's' then
    match args with
    | [] => Except.error PyErr.indexError
    | a :: rest =>
      match dic a.stringTidxValue with
      | none => Except.error PyErr.typeError
      | some t => Except.ok (strReplace part ['%', 's'] t, rest)
  else
    match findPctDotDigitsF part with
    | some pr =>
      match args with
      | [] => Except.error PyErr.indexError
      | a :: rest =>
        Except.ok
          (strReplace part ('%' :: '.' :: (natRepr (parseNat pr) ++ ['f']))
            (fmtR a.realValue (parseNat pr)), rest)
    | none =>
      match args with
      | [] => Except.error PyErr.indexError
      | a :: rest =>
        Except.ok (strReplace part ['%', 'f'] (reprR a.realValue), rest)

/-- Embedding of the body of `IncidentManager._insert_arguments` that
processes one `%`-token `part` with the current consumption counter and
the remaining argument list: tokens containing `d`, `s` or `f` go through
the positional-suffix block and then the `d`/`s`/`f` dispatch; any other
part passes through untouched.  Returns the rendered part, the new
counter and the remaining arguments, or the Python exception raised. -/
def processPart (R : Type) (reprR : R → List Char) (fmtR : R → Nat → List Char)
    (dic : TextDic) (part : List Char) (count : Nat) (args : List (PyArg R)) :
    Except PyErr (List Char × Nat × List (PyArg R)) :=
  if part.contains 'd' || part.contains 's' || part.contains 'f' then
    let pc := suffixAdjust part count
    match renderToken R reprR fmtR dic pc.1 args with
    | Except.error e => Except.error e
    | Except.ok (txt, rest) => Except.ok (txt, pc.2, rest)
  else
    Except.ok (part, count, args)

/-- Process the `%`-tokens of one word left to right, concatenating the
rendered parts (`"".join(temp_parts)`). -/
def processParts (R : Type) (reprR : R → List Char) (fmtR : R → Nat → List Char)
    (dic : TextDic) (parts : List (List Char)) (count : Nat) (args : List (PyArg R)) :
    Except PyErr (List Char × Nat × List (PyArg R)) :=
  match parts with
  | [] => Except.ok ([], count, args)
  | p :: ps =>
    match processPart R reprR fmtR dic p count args with
    | Except.error e => Except.error e
    | Except.ok (txt, count1, args1) =>
      match processParts R reprR fmtR dic ps count1 args1 with
      | Except.error e => Except.error e
      | Except.ok (rest, count2, args2) => Except.ok (txt ++ rest, count2, args2)

/-- Process the words of the template, threading the consumption counter
and the argument list through the whole template. -/
def processWords (R : Type) (reprR : R → List Char) (fmtR : R → Nat → List Char)
    (dic : TextDic) (words : List (List Char)) (count : Nat) (args : List (PyArg R)) :
    Except PyErr (List (List Char)) :=
  match words with
  | [] => Except.ok []
  | w :: ws =>
    if w.contains '%' then
      match processParts R reprR fmtR dic (findPercentRuns w) count args with
      | Except.error e => Except.error e
      | Except.ok (txt, count1, args1) =>
        match processWords R reprR fmtR dic ws count1 args1 with
        | Except.error e => Except.error e
        | Except.ok rest => Except.ok (txt :: rest)
    else
      match processWords R reprR fmtR dic ws count args with
      | Except.error e => Except.error e
      | Except.ok rest => Except.ok (w :: rest)

/-- Embedding of `IncidentManager._check_for_user`: scan for `User \d+`
matches; for each, look the digits up in the user directory; on a hit,
`text.replace(digits, user_name)` replaces every occurrence of the digit
substring in the whole text; on a miss the text is left unchanged. -/
def check_for_user (userDir : UserDir) (text : List Char) : List Char :=
  (findUserMatches text).foldl
    (fun t m =>
      let digits := firstDigitRun m
      match userDir (parseNat digits) with
      | some name => strReplace t digits name
      | none => t)
    text

/-- Embedding of `IncidentManager._insert_arguments`.  `baseText = none`
models the missing base template (`None.split(" ")` raises
`AttributeError`). -/
def insert_arguments (R : Type) (reprR : R → List Char) (fmtR : R → Nat → List Char)
    (dic : TextDic) (userDir : UserDir) (baseText : Option (List Char))
    (args : List (PyArg R)) : Except PyErr (List Char) :=
  match baseText with
  | none => Except.error PyErr.attributeError
  | some bt =>
    match processWords R reprR fmtR dic (splitOnSpace bt) 0 args with
    | Except.error e => Except.error e
    | Except.ok ws => Except.ok (check_for_user userDir (List.intercalate [' '] ws))

/-! ## Incident colors (`src/config/incident_config.py`, `get_incident_color`) -/

def INCIDENT_TYPE_event : String := "J_INCIDENT_EVENT"
def INCIDENT_TYPE_warning : String := "J_INCIDENT_WARNING"
def INCIDENT_TYPE_alarm : String := "J_INCIDENT_ALARM"

def INCIDENT_STATE_one_shot : String := "J_INCIDENT_ONE_SHOT"
def INCIDENT_STATE_set : String := "J_INCIDENT_SET"
def INCIDENT_STATE_clear : String := "J_INCIDENT_CLEAR"

def INCIDENT_COLORS_clear : String := "#77797d"
def INCIDENT_COLORS_event : String := "#05e81b"
def INCIDENT_COLORS_warning : String := "#e88605"
def INCIDENT_COLORS_alarm : String := "#e80505"
def INCIDENT_COLORS_black_text : String := "#000000"

/-- Embedding of `IncidentManager.get_incident_color`: the
`(label_color, text_color)` pair as a function of the entry's `type` and
`state` strings. -/
def get_incident_color (ty st : String) : String × String :=
  if st = INCIDENT_STATE_clear then
    if ty = INCIDENT_TYPE_event then (INCIDENT_COLORS_clear, INCIDENT_COLORS_event)
    else if ty = INCIDENT_TYPE_warning then (INCIDENT_COLORS_clear, INCIDENT_COLORS_warning)
    else (INCIDENT_COLORS_clear, INCIDENT_COLORS_alarm)
  else
    if ty = INCIDENT_TYPE_event then (INCIDENT_COLORS_event, INCIDENT_COLORS_black_text)
    else if ty = INCIDENT_TYPE_warning then (INCIDENT_COLORS_warning, INCIDENT_COLORS_black_text)
    else (INCIDENT_COLORS_alarm, INCIDENT_COLORS_black_text)

/-! ## Batch cleaning (`IncidentManager.clean_data`)

`convert_timestamp_to_readable` (datetime formatting) and
`_parse_help_text`'s markup stripping (html.unescape + BeautifulSoup) are
external formatting collaborators: the embedding is parametric in them
(`tsRepr`, `parseHelp`).  `_parse_help_text` applied to `None` (missing
help template) raises `TypeError` inside `html.unescape`, which the
embedding models explicitly before `parseHelp` is reached. -/

/-- A raw database entry as appended by `IncidentManager.add_db_entry`. -/
structure RawEntry (R : Type) where
  timestamp : Int
  tidx : Int
  help_tidx : Int
  type : String
  state : String
  args : List (PyArg R)

/-- A cleaned incident as appended to `IncidentManager.true_incidents`. -/
structure CleanIncident where
  timestamp : List Char
  help_text : List Char
  text : List Char
  label_color : String
  text_color : String
deriving DecidableEq, Repr

/-- The body of `clean_data`'s loop for one entry, in source order:
readable timestamp, help-template lookup and parse, argument insertion
into the base template, colors. -/
def cleanEntry (R : Type) (reprR : R → List Char) (fmtR : R → Nat → List Char)
    (tsRepr : Int → List Char) (parseHelp : List Char → List Char)
    (dic : TextDic) (userDir : UserDir) (e : RawEntry R) :
    Except PyErr CleanIncident :=
  let ts := tsRepr e.timestamp
  match dic e.help_tidx with
  | none => Except.error PyErr.typeError
  | some ht =>
    let help := parseHelp ht
    match insert_arguments R reprR fmtR dic userDir (dic e.tidx) e.args with
    | Except.error er => Except.error er
    | Except.ok txt =>
      let c := get_incident_color e.type e.state
      Except.ok ⟨ts, help, txt, c.1, c.2⟩

/-- Embedding of `IncidentManager.clean_data`: the loop appends cleaned
incidents to `true_incidents` until an entry raises, in which case the
exception propagates and the remaining entries are never processed.  The
result is the list of incidents appended before the abort together with
the raised exception, if any. -/
def clean_data (R : Type) (reprR : R → List Char) (fmtR : R → Nat → List Char)
    (tsRepr : Int → List Char) (parseHelp : List Char → List Char)
    (dic : TextDic) (userDir : UserDir) :
    List (RawEntry R) → List CleanIncident × Option PyErr
  | [] => ([], none)
  | e :: rest =>
    match cleanEntry R reprR fmtR tsRepr parseHelp dic userDir e with
    | Except.error er => ([], some er)
    | Except.ok c =>
      let r := clean_data R reprR fmtR tsRepr parseHelp dic userDir rest
      (c :: r.1, r.2)

/-! ## Multi-source merge engine (`src/util/file_util.py`)

The SQLite engine is external; it is embedded as a state machine over an
abstract file system mapping paths to file states.  A database is an
association list from table names to row lists (rows are abstract
tokens); the `sql` text stored in `sqlite_master` is abstracted to the
table name, so `CREATE TABLE` recreates an empty table of that name.
Per-row constraint violations are not modelled: an
`INSERT INTO t SELECT * FROM src.t` succeeds exactly when both sides have
table `t` (the specification's "non-conflicting rows" regime) and is
skipped otherwise, matching the source's catch-and-continue.  Paths are
taken relative to `DATA_FOLDER_PATH`, which prefixes every path equally.

All caught-and-ignored exception paths of the source are modelled by the
behaviour the `except ...: pass` handler produces:
* a missing source file is skipped (`os.path.exists` guard);
* a failed `ATTACH` (unopenable file) is skipped;
* when no schema reference was attached, the `sqlite_master` query fails
  with a caught `OperationalError` and the subsequent `fetchall()`
  returns `[]`, so `tables` is empty (verified CPython behaviour);
* `CREATE TABLE` on an existing name fails and is skipped;
* a failed insert (missing table on either side) is skipped;
* an unopenable *target* makes the first statement on the connection
  raise a `DatabaseError` that only the outermost handler catches, so
  `merge_batch` returns `False` without touching the file system. -/

/-- A table's rows (abstract row tokens). -/
abbrev DBTable := List Nat

/-- A database: association list from table names to rows.  Lookups use
the first entry with the given name. -/
abbrev DB := List (String × DBTable)

/-- State of a path in the abstract file system. -/
inductive FileState where
  /-- No file at this path (`os.path.exists` is false). -/
  | missing : FileState
  /-- A file exists but is not an openable database. -/
  | corrupt : FileState
  /-- An openable database. -/
  | stored (d : DB) : FileState
deriving DecidableEq

abbrev FS := String → FileState

def lookupTable (d : DB) (t : String) : Option DBTable :=
  (d.find? (fun p => p.1 = t)).map (fun p => p.2)

/-- `CREATE TABLE t ...`: fails (and is skipped) when `t` exists. -/
def createTable (d : DB) (t : String) : DB :=
  if (lookupTable d t).isSome then d else d ++ [(t, [])]

def setTable (d : DB) (t : String) (rows : DBTable) : DB :=
  d.map (fun p => if p.1 = t then (t, rows) else p)

/-- `INSERT INTO t SELECT * FROM src.t`: appends the source rows when both
sides have the table, otherwise the failure is caught and skipped. -/
def insertFrom (tgt : DB) (src : DB) (t : String) : DB :=
  match lookupTable tgt t, lookupTable src t with
  | some rows, some srows => setTable tgt t (rows ++ srows)
  | _, _ => tgt

/-- The filename filter of the schema-reference loop in `merge_batch`. -/
def refName (p : String) : Bool :=
  strContains p "FB20.DC.1" || strContains p "temp_merge"

/-- The schema-reference selection loop: the first existing, openable
batch member whose path passes `refName`; members failing the filter or
the attach are skipped. -/
def findRef (fs : FS) : List String → Option DB
  | [] => none
  | p :: rest =>
    match fs p with
    | FileState.stored d => if refName p then some d else findRef fs rest
    | _ => findRef fs rest

/-- Embedding of `merge_batch(file_paths, target_database, create_tables)`.
Returns the updated file system and the boolean result. -/
def merge_batch (fs : FS) (paths : List String) (target : String)
    (create_tables : Bool) : FS × Bool :=
  match fs target with
  | FileState.corrupt => (fs, false)
  | st =>
    let tgt0 : DB := match st with | FileState.stored d => d | _ => []
    let tables : List String :=
      match findRef fs paths with
      | some d => d.map Prod.fst
      | none => []
    let tgt1 := if create_tables then tables.foldl createTable tgt0 else tgt0
    let tgt2 := paths.foldl
      (fun acc p =>
        match fs p with
        | FileState.stored src => tables.foldl (fun a t => insertFrom a src t) acc
        | _ => acc)
      tgt1
    (fun q => if q = target then FileState.stored tgt2 else fs q, true)

/-- `BATCH_SIZE` from `src/config/constants.py`. -/
def BATCH_SIZE : Nat := 9

/-- The merged store's path (relative to `DATA_FOLDER_PATH`). -/
def mergedPath : String := "merged_db.sqlite"

/-- The temporary target path for the batch starting at index `i`. -/
def tempPath (i : Nat) : String :=
  "temp_merge_" ++ String.mk (natRepr i) ++ ".sqlite"

/-- The start indices of `range(0, n, BATCH_SIZE)`. -/
def batchStarts (n : Nat) : List Nat :=
  (List.range ((n + BATCH_SIZE - 1) / BATCH_SIZE)).map (fun k => k * BATCH_SIZE)

/-- One iteration of the batch loop in `merge_database_files`. -/
def mergeStep (paths : List String) (fs : FS) (i : Nat) : FS :=
  let batch := (paths.drop i).take BATCH_SIZE
  let tgt := if i = 0 then mergedPath else tempPath i
  let fs1 := (merge_batch fs batch tgt true).1
  if 0 < i then (merge_batch fs1 [tgt] mergedPath false).1 else fs1

/-- Embedding of `merge_database_files(file_paths)`.  The boolean results
of the inner `merge_batch` calls are discarded by the source, and no
statement of the loop can raise, so the function returns `True` on every
input. -/
def merge_database_files (fs : FS) (paths : List String) : FS × Bool :=
  ((batchStarts paths.length).foldl (mergeStep paths) fs, true)

/-! ## Timezone normalizer (`src/util/time_util.py`)

`enter_time_zone_offset` computes
`offset = (time_zone_offset / 100) * 60 * 60 * 1_000_000_000` with Python
*float* (IEEE 754 binary64) arithmetic, and
`entry["timestamp"] = int(float(entry["timestamp"])) + offset` stores a
float.  All values reached are integers, so the float pipeline is modelled
by `doubleRound`, which rounds an integer to the nearest binary64-representable
integer (round to nearest, ties to even): `float(T)` is
`doubleRound T`, and `x + offset` on exact binary64 integer inputs is
`doubleRound` of the exact sum, because at magnitudes of at least `2 ^ 52`
the representable binary64 values are exactly the integer multiples of
the spacing used here.  For `time_zone_offset = 800` every step of the
offset computation is exact (`800 / 100 = 8.0`, `8.0 * 60 = 480.0`,
`480.0 * 60 = 28800.0`, `28800.0 * 1e9 = 2.88e13 < 2 ^ 53`), so the float
`offset` equals the integer `offsetNs800` exactly. -/

/-- Fuel-driven floor of the base-2 logarithm (`0` for `n ≤ 1`); the fuel
of 70 covers every `n < 2 ^ 70`, far beyond any timestamp reached. -/
def floorLog2Aux : Nat → Nat → Nat
  | 0, _ => 0
  | fuel + 1, n => if n ≤ 1 then 0 else floorLog2Aux fuel (n / 2) + 1

def floorLog2 (n : Nat) : Nat := floorLog2Aux 70 n

/-- Round a natural number to the nearest binary64-representable value
(53-bit significand, round to nearest, ties to even). -/
def doubleRoundNat (n : Nat) : Nat :=
  if n < 2 ^ 53 then n
  else
    let s := 2 ^ (floorLog2 n - 52)
    let q := n / s
    let r := n % s
    if 2 * r < s then q * s
    else if s < 2 * r then (q + 1) * s
    else if q % 2 = 0 then q * s else (q + 1) * s

/-- Round an integer to the nearest binary64-representable value; IEEE 754
rounding is symmetric under negation. -/
def doubleRound (z : Int) : Int :=
  if z < 0 then -(doubleRoundNat (-z).toNat : Int) else (doubleRoundNat z.toNat : Int)

/-- The float nanosecond offset computed for `time_zone_offset = 800`
(exact in binary64, see the section comment). -/
def offsetNs800 : Int := 28800000000000

/-- The per-timestamp update of `enter_time_zone_offset` with the float
offset `offNs`: `int(float(t))` then float addition of the offset. -/
def shiftTs (offNs : Int) (t : Int) : Int := doubleRound (doubleRound t + offNs)

/-- One `{timestamp, value}` element of a time-value list.  The `value`
field plays no role in the shift; it is kept abstract as a row token. -/
structure TVEntry where
  timestamp : Int
  value : Nat
deriving DecidableEq, Repr

/-- The selected-data dictionary built by `SelectedDataManager`:
categories `io`, `vfd` (point name to time-value list) and `preset`
(preset name to point name to time-value list). -/
structure SelData where
  io : List (String × List TVEntry)
  vfd : List (String × List TVEntry)
  preset : List (String × List (String × List TVEntry))
deriving DecidableEq, Repr

def applyShift (offNs : Int) (l : List TVEntry) : List TVEntry :=
  l.map (fun e => { e with timestamp := shiftTs offNs e.timestamp })

/-- Embedding of `enter_time_zone_offset(data, time_zone_offset)` with the
float nanosecond offset `offNs` already computed: every timestamp in the
`io`, `vfd` and `preset` categories is shifted. -/
def enter_time_zone_offset (d : SelData) (offNs : Int) : SelData :=
  { io := d.io.map (fun p => (p.1, applyShift offNs p.2))
    vfd := d.vfd.map (fun p => (p.1, applyShift offNs p.2))
    preset := d.preset.map (fun pr => (pr.1, pr.2.map (fun p => (p.1, applyShift offNs p.2)))) }

/-- All timestamps of the selected data, in traversal order. -/
def selTimestamps (d : SelData) : List Int :=
  (d.io.flatMap fun p => p.2.map (fun e => e.timestamp)) ++
    (d.vfd.flatMap fun p => p.2.map (fun e => e.timestamp)) ++
    (d.preset.flatMap fun pr => pr.2.flatMap fun p => p.2.map (fun e => e.timestamp))

/-! ## Session offset resolution (`src/core/workflow_manager.py`)

`process_data` (and identically `process_incidents`) ends with:
`if self.time_zone_offset: shift` —
`else: self.time_zone_offset = db lookup; if self.time_zone_offset: shift`
`else: offset_hours = prompt; self.time_zone_offset = offset_hours;`
`if offset_hours is not None: shift else: pass through`.
The truthiness tests conflate the integer `0` with `None`; only the final
`is not None` test distinguishes them.  `set_time_zone_offset` stores the
offset and sets the ready event exactly when the offset `is not None`. -/

/-- Python truthiness of `Optional[int]`: `None` and `0` are falsy. -/
def pyTruthyOpt : Option Int → Bool
  | none => false
  | some v => decide (v ≠ 0)

/-- Observable outcome of the offset-resolution tail of
`WorkflowManager.process_data` / `process_incidents`. -/
structure OffsetOutcome where
  /-- `self.time_zone_offset` after the call. -/
  offset : Option Int
  /-- `some o` when `enter_time_zone_offset` was applied with offset `o`;
  `none` when the data passed through unshifted. -/
  applied : Option Int
  /-- Whether `get_time_zone_offset` was queried on the merged store. -/
  dbQueried : Bool
  /-- Whether the interactive prompt was reached. -/
  prompted : Bool
deriving DecidableEq, Repr

/-- Embedding of the offset-resolution tail of `process_data` (lines
203-221) and `process_incidents` (lines 330-352): `cur` is the stored
`self.time_zone_offset`, `dbOffset` the merged-store parameter lookup
result, `promptResult` the value `_ask_for_timezone_offset` returns. -/
def resolveOffset (cur dbOffset promptResult : Option Int) : OffsetOutcome :=
  if pyTruthyOpt cur then ⟨cur, cur, false, false⟩
  else if pyTruthyOpt dbOffset then ⟨dbOffset, dbOffset, true, false⟩
  else
    match promptResult with
    | some oh => ⟨some oh, some oh, true, true⟩
    | none => ⟨none, none, true, true⟩

/-- Embedding of `WorkflowManager.set_time_zone_offset`: the stored offset
and the resulting state of the `timezone_ready` event. -/
def set_time_zone_offset (offset : Option Int) : Option Int × Bool :=
  (offset, offset.isSome)

/-- The database stored at a path, reading a missing or unopenable file as
the empty database (what connecting to the path would create). -/
def dbAt (fs : FS) (p : String) : DB :=
  match fs p with
  | FileState.stored d => d
  | _ => []

/-! ## Concrete fixtures for closed evaluations

Instantiations of the parametric pieces of the decoder embedding (the
real-number type and its two formatting functions, plus small concrete
dictionaries and entries) used by the closed evaluation theorems. -/

/-- Real-formatting parameter instantiated at `Int` (the formatted value
never matters in the evaluations below). -/
def fmtRInt : Int → Nat → List Char := fun z _ => intRepr z

def dicC1 : TextDic := fun i =>
  if i = 1 then some "Fault %d".data
  else if i = 2 then some "h".data
  else if i = 3 then some "OK".data
  else none

def udNone : UserDir := fun _ => none

def tsReprC1 : Int → List Char := fun _ => "t".data

/-- An entry whose template `"Fault %d"` needs an argument but whose
argument sequence is empty: decoding raises `IndexError`. -/
def eBadC1 : RawEntry Int := ⟨0, 1, 2, "J_INCIDENT_ALARM", "J_INCIDENT_SET", []⟩

/-- An entry decoding cleanly (`"OK"` has no tokens). -/
def eGoodC1 : RawEntry Int := ⟨0, 3, 2, "J_INCIDENT_ALARM", "J_INCIDENT_SET", []⟩

/-- The user directory `{42 ↦ "jsmith"}`. -/
def ud42 : UserDir := fun n => if n = 42 then some "jsmith".data else none

/-! ## Helper lemmas on the string primitives -/

theorem parseNatAux_append (xs ys : List Char) (acc : Nat) :
    parseNatAux (xs ++ ys) acc = parseNatAux ys (parseNatAux xs acc) := by
  induction xs generalizing acc with
  | nil => rfl
  | cons c rest ih => simp [parseNatAux, ih]

theorem digitVal_digitChar {d : Nat} (h : d < 10) : digitVal (Nat.digitChar d) = d := by
  interval_cases d <;> rfl

theorem isDigit_digitChar {d : Nat} (h : d < 10) : (Nat.digitChar d).isDigit = true := by
  interval_cases d <;> rfl

theorem natReprAux_spec (fuel : Nat) :
    ∀ n, n ≤ fuel → ∀ acc,
      parseNatAux (natReprAux fuel n) acc = acc * 10 ^ (natReprAux fuel n).length + n := by
  induction fuel with
  | zero => intro n hn acc; interval_cases n; simp [natReprAux, parseNatAux]
  | succ fuel ih =>
    intro n hn acc
    by_cases h0 : n = 0
    · subst h0; simp [natReprAux, parseNatAux]
    · have hdiv : n / 10 ≤ fuel := by
        have : n / 10 < n := Nat.div_lt_self (Nat.pos_of_ne_zero h0) (by omega)
        omega
      have hmod : n % 10 < 10 := Nat.mod_lt _ (by omega)
      simp only [natReprAux, if_neg h0]
      rw [parseNatAux_append, ih (n / 10) hdiv acc]
      simp only [parseNatAux, digitVal_digitChar hmod, List.length_append,
        List.length_singleton]
      have : acc * 10 ^ ((natReprAux fuel (n / 10)).length + 1) =
          acc * 10 ^ (natReprAux fuel (n / 10)).length * 10 := by ring
      rw [this]
      omega

theorem parseNat_natRepr (n : Nat) : parseNat (natRepr n) = n := by
  by_cases h0 : n = 0
  · subst h0; rfl
  · simp only [natRepr, if_neg h0, parseNat]
    rw [natReprAux_spec n n le_rfl 0]
    simp

theorem natRepr_inj {a b : Nat} (h : natRepr a = natRepr b) : a = b := by
  have := parseNat_natRepr a
  rw [h, parseNat_natRepr] at this
  omega

theorem natReprAux_ne_nil {fuel n : Nat} (h0 : n ≠ 0) (hf : fuel ≠ 0) :
    natReprAux fuel n ≠ [] := by
  match fuel with
  | f + 1 => simp [natReprAux, if_neg h0]

theorem natRepr_ne_nil (n : Nat) : natRepr n ≠ [] := by
  by_cases h0 : n = 0
  · subst h0; simp [natRepr]
  · simp only [natRepr, if_neg h0]
    exact natReprAux_ne_nil h0 h0

theorem natReprAux_isDigit (fuel : Nat) :
    ∀ n, ∀ c ∈ natReprAux fuel n, c.isDigit = true := by
  induction fuel with
  | zero => intro n c hc; simp [natReprAux] at hc
  | succ fuel ih =>
    intro n c hc
    by_cases h0 : n = 0
    · subst h0; simp [natReprAux] at hc
    · simp only [natReprAux, if_neg h0, List.mem_append, List.mem_singleton] at hc
      rcases hc with hc | hc
      · exact ih _ c hc
      · subst hc; exact isDigit_digitChar (Nat.mod_lt _ (by omega))

theorem natRepr_isDigit (n : Nat) : ∀ c ∈ natRepr n, c.isDigit = true := by
  intro c hc
  by_cases h0 : n = 0
  · subst h0; simp [natRepr] at hc; subst hc; rfl
  · simp only [natRepr, if_neg h0] at hc
    exact natReprAux_isDigit n n c hc

theorem takeWhile_eq_self {p : Char → Bool} :
    ∀ {l : List Char}, (∀ c ∈ l, p c = true) → l.takeWhile p = l := by
  intro l
  induction l with
  | nil => intro _; rfl
  | cons c rest ih =>
    intro h
    have hc := h c (by simp)
    have hr := ih fun x hx => h x (by simp [hx])
    simp [List.takeWhile_cons, hc, hr]

theorem dropWhile_eq_nil {p : Char → Bool} :
    ∀ {l : List Char}, (∀ c ∈ l, p c = true) → l.dropWhile p = [] := by
  intro l
  induction l with
  | nil => intro _; rfl
  | cons c rest ih =>
    intro h
    simp only [List.dropWhile_cons, h c (by simp)]
    exact ih fun x hx => h x (by simp [hx])

/-- `str.replace` is the identity when the pattern's first character does
not occur in the string. -/
theorem strReplaceFuel_not_mem {c0 : Char} {old new : List Char} :
    ∀ (fuel : Nat) (s : List Char), c0 ∉ s →
      strReplaceFuel (c0 :: old) new fuel s = s := by
  intro fuel
  induction fuel with
  | zero => intro s _; cases s <;> rfl
  | succ fuel ih =>
    intro s hs
    match s with
    | [] => rfl
    | c :: rest =>
      have hne : ¬(c0 :: old).isPrefixOf (c :: rest) = true := by
        intro h
        rw [List.isPrefixOf_iff_prefix] at h
        obtain ⟨t, ht⟩ := h
        have hc : c0 = c := by
          have := congrArg List.head? ht
          simpa using this
        exact hs (by simp [hc])
      simp only [strReplaceFuel]
      rw [if_neg (by simp [hne]), ih rest (by intro hm; exact hs (by simp [hm]))]

theorem isPrefixOf_append (l r : List Char) : l.isPrefixOf (l ++ r) = true := by
  rw [List.isPrefixOf_iff_prefix]
  exact ⟨r, rfl⟩

/-- Replacing a pattern that the string starts with, when the pattern's
first character does not occur in the remainder: exactly the leading
occurrence is replaced. -/
theorem strReplace_prefix_rest {c0 : Char} {o tail new : List Char} (htail : c0 ∉ tail) :
    strReplace ((c0 :: o) ++ tail) (c0 :: o) new = new ++ tail := by
  show strReplaceFuel (c0 :: o) new ((o ++ tail).length + 1) (c0 :: (o ++ tail)) = new ++ tail
  simp only [strReplaceFuel]
  rw [if_pos ⟨by simp, isPrefixOf_append (c0 :: o) tail⟩]
  simp only [List.length_cons, Nat.add_sub_cancel]
  rw [List.drop_left o tail, strReplaceFuel_not_mem _ tail htail]

theorem isSubstr_of_isPrefixOf {l s : List Char} (h : l.isPrefixOf s = true) :
    isSubstr l s = true := by
  cases s with
  | nil =>
    rw [List.isPrefixOf_iff_prefix] at h
    have := List.prefix_nil.mp h
    subst this
    rfl
  | cons c rest => simp [isSubstr, h]

theorem isSuffixOf_append (l r : List Char) : l.isSuffixOf (r ++ l) = true := by
  rw [List.isSuffixOf_iff_suffix]
  exact ⟨r, rfl⟩

theorem not_mem_natRepr_of_not_digit (c : Char) (h : c.isDigit = false) (v : Nat) :
    c ∉ natRepr v := by
  intro hm
  have := natRepr_isDigit v c hm
  rw [h] at this
  cases this

/-! ## Claim C8 -/

/-- C8 (confirmed): the incident color pair `(label_color, text_color)` is
a pure function of `(type, state)` realizing the fixed table: for every
type, state `clear` maps to `(clear_color, that type's color)` and state
`set` maps to `(that type's color, black_text)`; in particular
`(alarm, clear)` yields `(clear_color, alarm_color)` and `(alarm, set)`
yields `(alarm_color, black_text)`. -/
theorem c8_incident_color_table :
    get_incident_color INCIDENT_TYPE_event INCIDENT_STATE_clear =
      (INCIDENT_COLORS_clear, INCIDENT_COLORS_event) ∧
    get_incident_color INCIDENT_TYPE_warning INCIDENT_STATE_clear =
      (INCIDENT_COLORS_clear, INCIDENT_COLORS_warning) ∧
    get_incident_color INCIDENT_TYPE_alarm INCIDENT_STATE_clear =
      (INCIDENT_COLORS_clear, INCIDENT_COLORS_alarm) ∧
    get_incident_color INCIDENT_TYPE_event INCIDENT_STATE_set =
      (INCIDENT_COLORS_event, INCIDENT_COLORS_black_text) ∧
    get_incident_color INCIDENT_TYPE_warning INCIDENT_STATE_set =
      (INCIDENT_COLORS_warning, INCIDENT_COLORS_black_text) ∧
    get_incident_color INCIDENT_TYPE_alarm INCIDENT_STATE_set =
      (INCIDENT_COLORS_alarm, INCIDENT_COLORS_black_text) := by
  refine ⟨?_, ?_, ?_, ?_, ?_, ?_⟩ <;> decide

/-! ## Claim C2 -/

/-- C2 counterexample: `merge_database_files` applied to the empty path
list returns `True`, refuting "merge(paths) returns false when paths is
empty". -/
theorem c2_counterexample :
    (merge_database_files (fun _ => FileState.missing) []).2 = true := rfl

/-- C2 (corrected): `merge_database_files` discards the boolean results of
its inner `merge_batch` calls and returns `True` for *every* input,
including the empty list and inputs with no openable source.  Only
`merge_batch` itself reports `False`, and only when the target store
cannot be opened. -/
theorem c2_merge_returns_true :
    (∀ (fs : FS) (paths : List String), (merge_database_files fs paths).2 = true) ∧
    (∀ (fs : FS) (paths : List String) (target : String) (ct : Bool),
      fs target = FileState.corrupt → (merge_batch fs paths target ct).2 = false) := by
  constructor
  · intro fs paths
    rfl
  · intro fs paths target ct h
    simp only [merge_batch, h]

/-- C2 witness: the corrected statement evaluated at concrete inputs. -/
theorem c2_witness :
    (merge_database_files (fun _ => FileState.missing) ["a"]).2 = true ∧
    (merge_batch (fun _ => FileState.corrupt) ["a"] "t" true).2 = false :=
  ⟨c2_merge_returns_true.1 (fun _ => FileState.missing) ["a"],
    c2_merge_returns_true.2 (fun _ => FileState.corrupt) ["a"] "t" true rfl⟩

/-! ## Claim C4 -/

/-- C4 counterexample: a session whose stored offset is the integer `0`
behaves exactly like a session with no offset resolved: `process_data`'s
resolution tail re-queries the store, reaches the prompt, and (with the
prompt cancelled) passes the timestamps through unshifted instead of
applying a zero shift. -/
theorem c4_counterexample :
    resolveOffset (some 0) none none = ⟨none, none, true, true⟩ ∧
    resolveOffset (some 0) none none = resolveOffset none none none :=
  ⟨rfl, rfl⟩

/-- C4 (corrected): in `process_data`/`process_incidents` the truthiness
test `if self.time_zone_offset:` conflates a resolved offset of `0` with
no offset at all: a session storing offset `0` re-resolves exactly like a
session storing `None`.  A shift is applied precisely when the first
truthy station (cached value, then store lookup) yields a nonzero offset,
or the prompt returns a value.  Only `set_time_zone_offset` distinguishes
`0` from `None`, via the `timezone_ready` event. -/
theorem c4_offset_zero_conflated :
    (∀ dbo pr, resolveOffset (some 0) dbo pr = resolveOffset none dbo pr) ∧
    (set_time_zone_offset (some 0)).2 = true ∧
    (set_time_zone_offset none).2 = false ∧
    (∀ cur dbo, (resolveOffset cur dbo none).applied =
      (if pyTruthyOpt cur then cur else if pyTruthyOpt dbo then dbo else none)) := by
  refine ⟨fun dbo pr => rfl, rfl, rfl, fun cur dbo => ?_⟩
  by_cases h1 : pyTruthyOpt cur <;> by_cases h2 : pyTruthyOpt dbo <;>
    simp [resolveOffset, h1, h2]

/-! ## Claim C6 -/

/-- C6 counterexample: decoding `"%s"` with argument `{stringIndex: 7}`
against a dictionary with no entry `7` raises `TypeError`
(`str.replace` receives `None`), refuting "produces a decode-failure
marker and does not raise an error". -/
theorem c6_counterexample :
    insert_arguments Int intRepr (fun z _ => intRepr z) (fun _ => none) (fun _ => none)
      (some "%s".data) [⟨0, 7, 0⟩] = Except.error PyErr.typeError := rfl

/-- C6 (corrected): decoding the template `"%s"` with argument sequence
`[{stringIndex: 7}]` and a dictionary mapping `7` to `"Motor Fault"`
produces `"Motor Fault"`; with a dictionary that has no entry `7` the
decode *raises* a `TypeError` (the `None` lookup result is passed to
`str.replace`) rather than producing a decode-failure marker. -/
theorem c6_percent_s_decode :
    insert_arguments Int intRepr (fun z _ => intRepr z)
      (fun i => if i = 7 then some "Motor Fault".data else none) (fun _ => none)
      (some "%s".data) [⟨0, 7, 0⟩] = Except.ok "Motor Fault".data ∧
    insert_arguments Int intRepr (fun z _ => intRepr z)
      (fun _ => none) (fun _ => none)
      (some "%s".data) [⟨0, 7, 0⟩] = Except.error PyErr.typeError :=
  ⟨rfl, rfl⟩

/-! ## Claim C7 -/

theorem foldl_fixed {β : Type} (f : List Char → β → List Char) :
    ∀ (ms : List β) (t : List Char), (∀ m ∈ ms, ∀ x, f x m = x) → ms.foldl f t = t := by
  intro ms
  induction ms with
  | nil => intro t _; rfl
  | cons m ms ih =>
    intro t h
    simp only [List.foldl_cons, h m (by simp)]
    exact ih t fun y hy x => h y (by simp [hy]) x

/-- C7 counterexample: `"User 42 X142"` decoded against the directory
`{42 ↦ "jsmith"}` yields `"User jsmith X1jsmith"` — the replacement hits
the `"42"` inside `"X142"` as well — instead of the claimed
`"User jsmith X142"` that would leave every other part of the text
unaltered. -/
theorem c7_counterexample :
    check_for_user ud42 "User 42 X142".data = "User jsmith X1jsmith".data ∧
    check_for_user ud42 "User 42 X142".data ≠ "User jsmith X142".data := by
  exact ⟨rfl, by decide⟩

/-- C7 (corrected): scanning for `User` followed by digits, a resolved
user ID replaces with `str.replace` *every* occurrence of that digit
substring throughout the whole text, not only the digits of the matched
occurrence; an unresolved ID leaves the text unchanged.  In particular
`"User 42"` with `{42 ↦ "jsmith"}` yields `"User jsmith"`, and with no
entry for `42` the text stays `"User 42"`. -/
theorem c7_user_replacement :
    (∀ (ud : UserDir) (text : List Char),
      (∀ m ∈ findUserMatches text, ud (parseNat (firstDigitRun m)) = none) →
      check_for_user ud text = text) ∧
    (∀ (ud : UserDir) (text m name : List Char),
      findUserMatches text = [m] → ud (parseNat (firstDigitRun m)) = some name →
      check_for_user ud text = strReplace text (firstDigitRun m) name) ∧
    check_for_user ud42 "User 42".data = "User jsmith".data ∧
    check_for_user udNone "User 42".data = "User 42".data := by
  refine ⟨?_, ?_, rfl, rfl⟩
  · intro ud text h
    unfold check_for_user
    exact foldl_fixed _ (findUserMatches text)
      text fun m hm x => by simp [h m hm]
  · intro ud text m name hm hud
    unfold check_for_user
    rw [hm]
    simp [hud]

/-- C7 witness: the corrected statement's general clauses evaluated at
concrete inputs. -/
theorem c7_witness :
    findUserMatches "User 42".data = ["User 42".data] ∧
    ud42 (parseNat (firstDigitRun "User 42".data)) = some "jsmith".data ∧
    check_for_user ud42 "User 42".data =
      strReplace "User 42".data (firstDigitRun "User 42".data) "jsmith".data :=
  ⟨by decide, by decide,
    c7_user_replacement.2.1 ud42 "User 42".data "User 42".data "jsmith".data
      (by decide) (by decide)⟩

/-! ## Claim C1 -/

/-- C1 counterexample: a batch of `N = 2` entries in which the first has a
template needing an argument but an empty argument sequence: `clean_data`
aborts with `IndexError` and decodes zero entries, although the second
entry decodes cleanly on its own — refuting "a decode-failure marker
confined to that entry ... the other N-1 entries are still decoded". -/
theorem c1_counterexample :
    clean_data Int intRepr fmtRInt tsReprC1 id dicC1 udNone [eBadC1, eGoodC1] =
      ([], some PyErr.indexError) ∧
    (cleanEntry Int intRepr fmtRInt tsReprC1 id dicC1 udNone eGoodC1).toOption.isSome =
      true :=
  ⟨rfl, rfl⟩

/-- C1 (corrected): a template lookup miss or an argument underflow in one
entry *raises* a Python exception (`AttributeError`/`TypeError`/
`IndexError`) that propagates out of `clean_data` and aborts the whole
batch at the offending entry: the entries before it are decoded and kept,
the offending entry and every later entry are not decoded. -/
theorem c1_batch_abort (R : Type) (reprR : R → List Char) (fmtR : R → Nat → List Char)
    (tsRepr : Int → List Char) (parseHelp : List Char → List Char)
    (dic : TextDic) (userDir : UserDir) (pre : List (RawEntry R)) (e : RawEntry R)
    (post : List (RawEntry R)) (err : PyErr)
    (hpre : ∀ x ∈ pre, ∃ c, cleanEntry R reprR fmtR tsRepr parseHelp dic userDir x = Except.ok c)
    (he : cleanEntry R reprR fmtR tsRepr parseHelp dic userDir e = Except.error err) :
    clean_data R reprR fmtR tsRepr parseHelp dic userDir (pre ++ e :: post) =
      (pre.filterMap (fun x => (cleanEntry R reprR fmtR tsRepr parseHelp dic userDir x).toOption),
        some err) := by
  induction pre with
  | nil => simp [clean_data, he]
  | cons x pre ih =>
    obtain ⟨c, hc⟩ := hpre x (by simp)
    have ih' := ih fun y hy => hpre y (by simp [hy])
    simp [clean_data, hc, ih', Except.toOption]

/-- C1 witness: the corrected statement at a concrete batch — one clean
entry, then the malformed one: the clean prefix is decoded and the
exception aborts the rest. -/
theorem c1_witness :
    clean_data Int intRepr fmtRInt tsReprC1 id dicC1 udNone ([eGoodC1] ++ eBadC1 :: []) =
      ([eGoodC1].filterMap
        (fun x => (cleanEntry Int intRepr fmtRInt tsReprC1 id dicC1 udNone x).toOption),
        some PyErr.indexError) :=
  c1_batch_abort Int intRepr fmtRInt tsReprC1 id dicC1 udNone [eGoodC1] eBadC1 []
    PyErr.indexError
    (by
      intro x hx
      simp only [List.mem_singleton] at hx
      subst hx
      exact ⟨_, rfl⟩)
    rfl

/-! ## Claim C9 -/

theorem findPctDigitsD_no_pct : ∀ {s : List Char}, '%' ∉ s → findPctDigitsD s = none := by
  intro s
  induction s with
  | nil => intro _; rfl
  | cons c rest ih =>
    intro h
    have hc : ¬(c = '%') := fun he => h (by simp [he])
    simp only [findPctDigitsD, if_neg hc]
    exact ih fun hm => h (by simp [hm])

theorem findPctDigitsD_pct_d {l : List Char} (h : '%' ∉ l) :
    findPctDigitsD ('%' :: 'd' :: l) = none := by
  simp only [findPctDigitsD]
  rw [if_pos trivial,
    if_neg (by simp [List.takeWhile_cons, show ('d' : Char).isDigit = false from rfl]),
    if_neg (show ¬('d' : Char) = '%' by decide)]
  exact findPctDigitsD_no_pct h

theorem findLetterDigits_pct (l c : Char) (cs : List Char)
    (hla : l.isAlpha = true) (hc : c.isDigit = true) :
    findLetterDigits ('%' :: l :: c :: cs) = some (l, (c :: cs).takeWhile Char.isDigit) := by
  have h1 : ¬(('%' : Char).isAlpha = true ∧ l.isDigit = true) := by simp
  simp only [findLetterDigits, if_neg h1]
  rw [if_pos ⟨hla, hc⟩]

theorem findLetterDigits_pct_natRepr (l : Char) (v : Nat) (hla : l.isAlpha = true) :
    findLetterDigits ('%' :: l :: natRepr v) = some (l, natRepr v) := by
  obtain ⟨c, cs, hcs⟩ := List.exists_cons_of_ne_nil (natRepr_ne_nil v)
  have hc : c.isDigit = true := natRepr_isDigit v c (by rw [hcs]; exact List.mem_cons_self c cs)
  have htw : (c :: cs).takeWhile Char.isDigit = c :: cs := by
    apply takeWhile_eq_self
    intro x hx
    exact natRepr_isDigit v x (by rw [hcs]; exact hx)
  rw [hcs, findLetterDigits_pct l c cs hla hc, htw]

/-- The suffix block leaves the argument counter unchanged exactly when
the suffix value differs from it. -/
theorem suffixAdjust_count {part : List Char} {l : Char} {ds : List Char} (count : Nat)
    (hld : findLetterDigits part = some (l, ds)) :
    (suffixAdjust part count).2 = if parseNat ds = count then count + 1 else count := by
  simp only [suffixAdjust, hld]
  by_cases hv : parseNat ds = count <;> simp [hv]

/-- A successful `renderToken` consumes exactly one argument from the
front of the argument list. -/
theorem renderToken_consumes {R : Type} {reprR : R → List Char} {fmtR : R → Nat → List Char}
    {dic : TextDic} {part : List Char} {args : List (PyArg R)} {txt : List Char}
    {args' : List (PyArg R)}
    (h : renderToken R reprR fmtR dic part args = Except.ok (txt, args')) :
    ∃ a, args = a :: args' := by
  unfold renderToken at h
  split at h
  · split at h
    · split at h
      · cases h
      · cases h; exact ⟨_, rfl⟩
    · split at h
      · cases h
      · cases h; exact ⟨_, rfl⟩
  · split at h
    · split at h
      · cases h
      · split at h
        · cases h
        · cases h; exact ⟨_, rfl⟩
    · split at h
      · split at h
        · cases h
        · cases h; exact ⟨_, rfl⟩
      · split at h
        · cases h
        · cases h; exact ⟨_, rfl⟩

/-- C9 counterexample: the token `"%2d2"` carries the positional suffix
`2`; with counter `0` (a mismatch) the claim asserts the suffix digits
remain in the rendered text, but the zero-pad width removal
(`part.replace("2", "")`) deletes every `"2"`, so the rendered text is
`"05"` with no suffix digits left (counter unchanged, one argument
consumed). -/
theorem c9_counterexample :
    findLetterDigits "%2d2".data = some ('d', ['2']) ∧
    processPart Int intRepr fmtRInt (fun _ => none) "%2d2".data 0 [⟨5, 0, 0⟩] =
      Except.ok ("05".data, 0, []) ∧
    isSubstr ['2'] "05".data = false :=
  ⟨rfl, rfl, rfl⟩

/-- C9 (corrected): for every `%d`/`%s`/`%f` token carrying a decimal
positional suffix, a successful decode strips nothing and leaves the
counter unchanged when the suffix value differs from the counter, and
increments the counter when it matches; either way the token consumes
exactly one argument from the front of the sequence.  On a mismatch the
suffix digits remain in the rendered text for *width-free* tokens
(`%dN`, `%sN`), but not in general: a zero-pad width's digit-removal
(`part.replace(digit_len, "")`) deletes every occurrence of the width's
digit string and can delete the suffix digits too (see the
counterexample `"%2d2"`). -/
theorem c9_positional_suffix (R : Type) (reprR : R → List Char) (fmtR : R → Nat → List Char)
    (dic : TextDic) :
    (∀ (part : List Char) (count : Nat) (a : PyArg R) (rest : List (PyArg R))
        (l : Char) (ds : List Char) (out : List Char × Nat × List (PyArg R)),
      (part.contains 'd' || part.contains 's' || part.contains 'f') = true →
      findLetterDigits part = some (l, ds) →
      processPart R reprR fmtR dic part count (a :: rest) = Except.ok out →
      out.2.2 = rest ∧ out.2.1 = (if parseNat ds = count then count + 1 else count)) ∧
    (∀ (v count : Nat) (a : PyArg R) (rest : List (PyArg R)), v ≠ count →
      processPart R reprR fmtR dic ('%' :: 'd' :: natRepr v) count (a :: rest) =
        Except.ok (intRepr a.longValue ++ natRepr v, count, rest)) ∧
    (∀ (v count : Nat) (a : PyArg R) (rest : List (PyArg R)) (t : List Char), v ≠ count →
      dic a.stringTidxValue = some t →
      processPart R reprR fmtR dic ('%' :: 's' :: natRepr v) count (a :: rest) =
        Except.ok (t ++ natRepr v, count, rest)) ∧
    (∀ (v : Nat) (a : PyArg R) (rest : List (PyArg R)),
      processPart R reprR fmtR dic ('%' :: 'd' :: natRepr v) v (a :: rest) =
        Except.ok (intRepr a.longValue, v + 1, rest)) := by
  have hpctd : ∀ v : Nat, '%' ∉ natRepr v :=
    fun v => not_mem_natRepr_of_not_digit '%' rfl v
  refine ⟨?_, ?_, ?_, ?_⟩
  · -- general counter and consumption clause
    intro part count a rest l ds out hdsf hld hout
    simp only [processPart, hdsf] at hout
    rw [if_pos trivial] at hout
    rcases hr : renderToken R reprR fmtR dic (suffixAdjust part count).1 (a :: rest)
      with e | ⟨txt, args'⟩
    · rw [hr] at hout
      cases hout
    · rw [hr] at hout
      change Except.ok (txt, (suffixAdjust part count).2, args') = Except.ok out at hout
      cases hout
      obtain ⟨a', ha⟩ := renderToken_consumes hr
      have hrest : rest = args' := (List.cons.injEq _ _ _ _ ▸ ha).2
      exact ⟨hrest.symm, suffixAdjust_count count hld⟩
  · -- width-free %d token, mismatching suffix: the suffix digits remain
    intro v count a rest hv
    have hsa : suffixAdjust ('%' :: 'd' :: natRepr v) count = ('%' :: 'd' :: natRepr v, count) := by
      simp only [suffixAdjust, findLetterDigits_pct_natRepr 'd' v rfl, parseNat_natRepr]
      rw [if_neg hv]
    have hrt : renderToken R reprR fmtR dic ('%' :: 'd' :: natRepr v) (a :: rest) =
        Except.ok (intRepr a.longValue ++ natRepr v, rest) := by
      unfold renderToken
      rw [if_pos (show (('%' :: 'd' :: natRepr v).contains 'd') = true from rfl),
        findPctDigitsD_pct_d (hpctd v)]
      show Except.ok (strReplace ('%' :: 'd' :: natRepr v) ['%', 'd'] (intRepr a.longValue),
        rest) = _
      rw [show ('%' :: 'd' :: natRepr v) = ('%' :: ['d']) ++ natRepr v from rfl,
        strReplace_prefix_rest (hpctd v)]
    unfold processPart
    rw [if_pos (show (('%' :: 'd' :: natRepr v).contains 'd' ||
        ('%' :: 'd' :: natRepr v).contains 's' ||
        ('%' :: 'd' :: natRepr v).contains 'f') = true from rfl)]
    simp only [hsa, hrt]
  · -- width-free %s token, mismatching suffix
    intro v count a rest t hv hdic
    have hd : ('%' :: 's' :: natRepr v).contains 'd' = false := by
      simp
      exact not_mem_natRepr_of_not_digit 'd' rfl v
    have hsa : suffixAdjust ('%' :: 's' :: natRepr v) count = ('%' :: 's' :: natRepr v, count) := by
      simp only [suffixAdjust, findLetterDigits_pct_natRepr 's' v rfl, parseNat_natRepr]
      rw [if_neg hv]
    have hrt : renderToken R reprR fmtR dic ('%' :: 's' :: natRepr v) (a :: rest) =
        Except.ok (t ++ natRepr v, rest) := by
      unfold renderToken
      rw [if_neg (by simp only [hd]; exact Bool.false_ne_true),
        if_pos (show (('%' :: 's' :: natRepr v).contains 's') = true from rfl)]
      show (match dic a.stringTidxValue with
        | none => Except.error PyErr.typeError
        | some t => Except.ok (strReplace ('%' :: 's' :: natRepr v) ['%', 's'] t, rest)) = _
      rw [hdic]
      show Except.ok (strReplace ('%' :: 's' :: natRepr v) ['%', 's'] t, rest) = _
      rw [show ('%' :: 's' :: natRepr v) = ('%' :: ['s']) ++ natRepr v from rfl,
        strReplace_prefix_rest (hpctd v)]
    unfold processPart
    rw [if_pos (by simp [hd, show (('%' :: 's' :: natRepr v).contains 's') = true from rfl])]
    simp only [hsa, hrt]
  · -- width-free %d token with matching suffix: stripped, counter bumped
    intro v a rest
    have hstrip : stripSuffixLen ('%' :: 'd' :: natRepr v) (natRepr v).length = ['%', 'd'] := by
      unfold stripSuffixLen
      have hlen : ('%' :: 'd' :: natRepr v).length - (natRepr v).length = 2 := by
        simp only [List.length_cons]
        omega
      rw [hlen]
      rfl
    have hsa : suffixAdjust ('%' :: 'd' :: natRepr v) v = (['%', 'd'], v + 1) := by
      simp only [suffixAdjust, findLetterDigits_pct_natRepr 'd' v rfl, parseNat_natRepr]
      rw [if_pos trivial,
        if_pos (show ((natRepr v).isSuffixOf ('%' :: 'd' :: natRepr v)) = true from
          isSuffixOf_append (natRepr v) ['%', 'd']),
        hstrip]
    have hrt : renderToken R reprR fmtR dic ['%', 'd'] (a :: rest) =
        Except.ok (intRepr a.longValue, rest) := by
      unfold renderToken
      rw [if_pos (show ((['%', 'd'] : List Char).contains 'd') = true from rfl),
        show findPctDigitsD ['%', 'd'] = none from rfl]
      show Except.ok (strReplace ['%', 'd'] ['%', 'd'] (intRepr a.longValue), rest) = _
      nth_rewrite 1 [show (['%', 'd'] : List Char) = ('%' :: ['d']) ++ [] from rfl]
      rw [strReplace_prefix_rest (by simp)]
      simp
    unfold processPart
    rw [if_pos (show (('%' :: 'd' :: natRepr v).contains 'd' ||
        ('%' :: 'd' :: natRepr v).contains 's' ||
        ('%' :: 'd' :: natRepr v).contains 'f') = true from rfl)]
    simp only [hsa, hrt]

/-- C9 witness: the corrected statement's clauses applied at concrete
tokens (`"%d1"` with counter `0`, and `"%d3"` with counters `0` and `3`). -/
theorem c9_witness :
    ((("%d1".data.contains 'd' || "%d1".data.contains 's' || "%d1".data.contains 'f') = true) ∧
      findLetterDigits "%d1".data = some ('d', ['1']) ∧
      processPart Int intRepr fmtRInt (fun _ => none) "%d1".data 0 [⟨5, 0, 0⟩] =
        Except.ok ("51".data, 0, [])) ∧
    (([] : List (PyArg Int)) = [] ∧
      (0 : Nat) = if parseNat ['1'] = 0 then 1 else 0) ∧
    processPart Int intRepr fmtRInt (fun _ => none) ('%' :: 'd' :: natRepr 3) 0
      [(⟨7, 0, 0⟩ : PyArg Int)] = Except.ok (intRepr (7 : Int) ++ natRepr 3, 0, []) ∧
    processPart Int intRepr fmtRInt (fun _ => none) ('%' :: 'd' :: natRepr 3) 3
      [(⟨7, 0, 0⟩ : PyArg Int)] = Except.ok (intRepr (7 : Int), 4, []) :=
  ⟨⟨by decide, by decide, rfl⟩,
    (c9_positional_suffix Int intRepr fmtRInt (fun _ => none)).1 "%d1".data 0 ⟨5, 0, 0⟩ []
      'd' ['1'] ("51".data, 0, []) (by decide) (by decide) rfl,
    (c9_positional_suffix Int intRepr fmtRInt (fun _ => none)).2.1 3 0 ⟨7, 0, 0⟩ []
      (by decide),
    (c9_positional_suffix Int intRepr fmtRInt (fun _ => none)).2.2.2 3 ⟨7, 0, 0⟩ []⟩

/-! ## Claim C3 -/

theorem doubleRoundNat_id {n : Nat} (h : n ≤ 2 ^ 53) : doubleRoundNat n = n := by
  rcases Nat.lt_or_ge n (2 ^ 53) with hlt | hge
  · unfold doubleRoundNat
    rw [if_pos hlt]
  · have he : n = 2 ^ 53 := le_antisymm h hge
    subst he
    decide

theorem doubleRound_id {z : Int} (h1 : -(2 ^ 53) ≤ z) (h2 : z ≤ 2 ^ 53) :
    doubleRound z = z := by
  unfold doubleRound
  by_cases hz : z < 0
  · rw [if_pos hz, doubleRoundNat_id (by omega)]
    omega
  · rw [if_neg hz, doubleRoundNat_id (by omega)]
    omega

theorem shiftTs_exact {z off : Int} (hoff : 0 ≤ off) (h1 : -(2 ^ 53) ≤ z)
    (h2 : z + off ≤ 2 ^ 53) : shiftTs off z = z + off := by
  unfold shiftTs
  rw [doubleRound_id h1 (by omega), doubleRound_id (by omega) h2]

/-- Both exactness facts for the `+800` offset under the
exactly-representable range. -/
theorem shiftTs800_exact {t : Int} (h1 : -(2 ^ 53) ≤ t)
    (h2 : t ≤ 2 ^ 53 - 2 * offsetNs800) :
    shiftTs offsetNs800 t = t + offsetNs800 ∧
    shiftTs offsetNs800 (shiftTs offsetNs800 t) = t + 2 * offsetNs800 := by
  have hoffv : (offsetNs800 : Int) = 28800000000000 := rfl
  have h53 : ((2 : Int) ^ 53) = 9007199254740992 := by norm_num
  have e1 : shiftTs offsetNs800 t = t + offsetNs800 := by
    apply shiftTs_exact (by omega) h1
    omega
  refine ⟨e1, ?_⟩
  rw [e1]
  have e2 : shiftTs offsetNs800 (t + offsetNs800) = t + offsetNs800 + offsetNs800 := by
    apply shiftTs_exact (by omega) (by omega)
    omega
  rw [e2]
  ring

theorem applyShift_timestamps (offNs : Int) (l : List TVEntry) :
    (applyShift offNs l).map (fun e => e.timestamp) =
      (l.map fun e => e.timestamp).map (shiftTs offNs) := by
  simp [applyShift, List.map_map]

theorem flatMap_shift (offNs : Int) (l : List (String × List TVEntry)) :
    ((l.map (fun p => (p.1, applyShift offNs p.2))).flatMap
        fun p => p.2.map (fun e => e.timestamp)) =
      (l.flatMap fun p => p.2.map (fun e => e.timestamp)).map (shiftTs offNs) := by
  induction l with
  | nil => rfl
  | cons p ps ih => simp [ih, applyShift_timestamps]

theorem flatMap_shift_preset (offNs : Int)
    (l : List (String × List (String × List TVEntry))) :
    ((l.map (fun pr => (pr.1, pr.2.map (fun p => (p.1, applyShift offNs p.2))))).flatMap
        fun pr => pr.2.flatMap fun p => p.2.map (fun e => e.timestamp)) =
      (l.flatMap fun pr => pr.2.flatMap fun p => p.2.map (fun e => e.timestamp)).map
        (shiftTs offNs) := by
  induction l with
  | nil => rfl
  | cons pr prs ih => simp [ih, flatMap_shift offNs pr.2]

/-- Shifting the selected data shifts exactly its timestamp multiset, in
traversal order. -/
theorem selTimestamps_shift (d : SelData) (offNs : Int) :
    selTimestamps (enter_time_zone_offset d offNs) =
      (selTimestamps d).map (shiftTs offNs) := by
  cases d with
  | mk io vfd preset =>
    simp only [selTimestamps, enter_time_zone_offset, List.map_append,
      flatMap_shift, flatMap_shift_preset]

/-- C3 counterexample: at `T = 2 ^ 53 + 1 = 9007199254740993` ns the float
pipeline yields `9035999254740992`, not the exact
`T + 8 * 3600 * 1_000_000_000 = 9035999254740993`: applying offset `+800`
is not exact for every integer nanosecond timestamp. -/
theorem c3_counterexample :
    selTimestamps
        (enter_time_zone_offset ⟨[("p", [⟨9007199254740993, 0⟩])], [], []⟩ offsetNs800) =
      [9035999254740992] ∧
    (9035999254740992 : Int) ≠ 9007199254740993 + 8 * 3600 * 1000000000 := by
  exact ⟨by decide, by decide⟩

/-- C3 (corrected): the offset computation for `+800` is performed in
binary64 floats; the float nanosecond offset itself is exactly
`8 * 3600 * 1_000_000_000`, and for every timestamp in the
exactly-representable range (`|T| ≤ 2 ^ 53` before and after the shifts)
one application yields exactly `T + 8h` and a second application yields
exactly `T + 16h` (the operation is not idempotent).  Outside that range
the result is rounded to the nearest representable value (see the
counterexample at `2 ^ 53 + 1`). -/
theorem c3_timezone_shift (d : SelData)
    (h : ∀ t ∈ selTimestamps d, -(2 ^ 53) ≤ t ∧ t ≤ 2 ^ 53 - 2 * offsetNs800) :
    selTimestamps (enter_time_zone_offset d offsetNs800) =
      (selTimestamps d).map (fun t => t + 8 * 3600 * 1000000000) ∧
    selTimestamps
        (enter_time_zone_offset (enter_time_zone_offset d offsetNs800) offsetNs800) =
      (selTimestamps d).map (fun t => t + 16 * 3600 * 1000000000) := by
  have hone : ∀ t ∈ selTimestamps d, shiftTs offsetNs800 t = t + 8 * 3600 * 1000000000 := by
    intro t ht
    rw [(shiftTs800_exact (h t ht).1 (h t ht).2).1]
    rfl
  constructor
  · rw [selTimestamps_shift]
    exact List.map_congr_left hone
  · rw [selTimestamps_shift, selTimestamps_shift, List.map_map]
    apply List.map_congr_left
    intro t ht
    show shiftTs offsetNs800 (shiftTs offsetNs800 t) = _
    rw [(shiftTs800_exact (h t ht).1 (h t ht).2).2]
    rfl

/-- C3 witness: the corrected statement applied to a one-point selection
with an in-range timestamp. -/
theorem c3_witness :
    (∀ t ∈ selTimestamps ⟨[("p", [⟨1000, 0⟩])], [], []⟩,
      -(2 ^ 53) ≤ t ∧ t ≤ 2 ^ 53 - 2 * offsetNs800) ∧
    selTimestamps (enter_time_zone_offset ⟨[("p", [⟨1000, 0⟩])], [], []⟩ offsetNs800) =
      (selTimestamps (⟨[("p", [⟨1000, 0⟩])], [], []⟩ : SelData)).map
        (fun t => t + 8 * 3600 * 1000000000) :=
  ⟨by decide, (c3_timezone_shift ⟨[("p", [⟨1000, 0⟩])], [], []⟩ (by decide)).1⟩

/-! ## Claim C10 -/

theorem findRef_none {fs : FS} : ∀ {paths : List String},
    (∀ p ∈ paths, refName p = false) → findRef fs paths = none := by
  intro paths
  induction paths with
  | nil => intro _; rfl
  | cons p ps ih =>
    intro h
    have hp := h p (by simp)
    have hps := ih fun q hq => h q (by simp [hq])
    unfold findRef
    cases hfs : fs p with
    | missing => exact hps
    | corrupt => exact hps
    | stored d => rw [hp]; exact hps

theorem findRef_some {fs : FS} : ∀ {paths : List String} {d : DB},
    findRef fs paths = some d →
      ∃ p ∈ paths, refName p = true ∧ fs p = FileState.stored d := by
  intro paths
  induction paths with
  | nil => intro d h; cases h
  | cons p ps ih =>
    intro d h
    unfold findRef at h
    cases hfs : fs p with
    | missing =>
      rw [hfs] at h
      obtain ⟨q, hq, hr, hs⟩ := ih h
      exact ⟨q, by simp [hq], hr, hs⟩
    | corrupt =>
      rw [hfs] at h
      obtain ⟨q, hq, hr, hs⟩ := ih h
      exact ⟨q, by simp [hq], hr, hs⟩
    | stored dd =>
      rw [hfs] at h
      have h' : (if refName p = true then some dd else findRef fs ps) = some d := h
      by_cases hr : refName p
      · rw [if_pos hr] at h'
        cases h'
        exact ⟨p, by simp, hr, hfs⟩
      · rw [if_neg hr] at h'
        obtain ⟨q, hq, hrq, hs⟩ := ih h'
        exact ⟨q, by simp [hq], hrq, hs⟩

theorem foldl_const {α β : Type} (f : α → β → α) (hf : ∀ a b, f a b = a) :
    ∀ (l : List β) (x : α), l.foldl f x = x := by
  intro l
  induction l with
  | nil => intro x; rfl
  | cons b bs ih => intro x; rw [List.foldl_cons, hf x b]; exact ih x

/-- C10 (confirmed): the schema reference is attached only when some
existing batch member's path passes the `"FB20.DC.1"`/`"temp_merge"`
filter; when no member's path contains either substring, `merge_batch`
creates no tables in and copies no rows into the target, whatever sources
the batch contains. -/
theorem c10_schema_reference :
    (∀ (fs : FS) (paths : List String) (d : DB), findRef fs paths = some d →
      ∃ p ∈ paths, refName p = true ∧ fs p ≠ FileState.missing) ∧
    (∀ (fs : FS) (paths : List String) (target : String) (ct : Bool),
      (∀ p ∈ paths, refName p = false) → fs target ≠ FileState.corrupt →
      (merge_batch fs paths target ct).1 target = FileState.stored (dbAt fs target) ∧
      ∀ q, q ≠ target → (merge_batch fs paths target ct).1 q = fs q) := by
  constructor
  · intro fs paths d h
    obtain ⟨p, hp, hr, hs⟩ := findRef_some h
    exact ⟨p, hp, hr, by rw [hs]; intro hc; cases hc⟩
  · intro fs paths target ct href htgt
    have hnone := @findRef_none fs paths href
    have hbody : ∀ st, fs target = st → st ≠ FileState.corrupt →
        merge_batch fs paths target ct =
          (fun q => if q = target then FileState.stored (dbAt fs target) else fs q, true) := by
      intro st hst hc
      cases st with
      | corrupt => exact absurd rfl hc
      | missing =>
        simp only [merge_batch, hst, hnone]
        rw [foldl_const _ (fun a b => by cases hfs : fs b <;> rfl) paths]
        have : dbAt fs target = [] := by unfold dbAt; rw [hst]
        rw [this]
        cases ct <;> rfl
      | stored d0 =>
        simp only [merge_batch, hst, hnone]
        rw [foldl_const _ (fun a b => by cases hfs : fs b <;> rfl) paths]
        have : dbAt fs target = d0 := by unfold dbAt; rw [hst]
        rw [this]
        cases ct <;> rfl
    rw [hbody (fs target) rfl htgt]
    exact ⟨by simp, fun q hq => by simp [hq]⟩

/-- C10 witness: a batch whose single member has no matching substring in
its path leaves the (fresh) target empty. -/
theorem c10_witness :
    (∀ p ∈ ["a.db"], refName p = false) ∧
    ((fun p => if p = "a.db" then FileState.stored [("T", [5])] else FileState.missing) "t"
      ≠ FileState.corrupt) ∧
    (merge_batch (fun p => if p = "a.db" then FileState.stored [("T", [5])]
        else FileState.missing) ["a.db"] "t" true).1 "t" =
      FileState.stored (dbAt (fun p => if p = "a.db" then FileState.stored [("T", [5])]
        else FileState.missing) "t") :=
  ⟨by decide, by decide,
    (c10_schema_reference.2
      (fun p => if p = "a.db" then FileState.stored [("T", [5])] else FileState.missing)
      ["a.db"] "t" true (by decide) (by decide)).1⟩

/-! ## Claim C5: association-list lemmas -/

theorem lookupTable_cons_self {T : String} {r : DBTable} {d : DB} :
    lookupTable ((T, r) :: d) T = some r := by
  simp [lookupTable, List.find?]

theorem lookupTable_cons_other {T : String} {e : String × DBTable} {d : DB}
    (h : e.1 ≠ T) : lookupTable (e :: d) T = lookupTable d T := by
  simp [lookupTable, List.find?, h]

theorem mem_names_of_lookup {d : DB} {T : String} {r : DBTable}
    (h : lookupTable d T = some r) : T ∈ d.map Prod.fst := by
  induction d with
  | nil => cases h
  | cons e es ih =>
    by_cases he : e.1 = T
    · simp [he]
    · rw [lookupTable_cons_other he] at h
      simp [ih h]

theorem lookup_none_iff {d : DB} {T : String} :
    lookupTable d T = none ↔ T ∉ d.map Prod.fst := by
  induction d with
  | nil => simp [lookupTable]
  | cons e es ih =>
    by_cases he : e.1 = T
    · subst he
      rw [show e = (e.1, e.2) from rfl, lookupTable_cons_self]
      simp
    · rw [lookupTable_cons_other he]
      simp [ih, Ne.symm he]

theorem lookupTable_append_left {d d' : DB} {T : String} {r : DBTable}
    (h : lookupTable d T = some r) : lookupTable (d ++ d') T = some r := by
  induction d with
  | nil => cases h
  | cons e es ih =>
    by_cases he : e.1 = T
    · subst he
      rw [show e = (e.1, e.2) from rfl] at h ⊢
      rw [lookupTable_cons_self] at h
      rw [List.cons_append, lookupTable_cons_self]
      exact h
    · rw [lookupTable_cons_other he] at h
      rw [List.cons_append, lookupTable_cons_other he]
      exact ih h

theorem lookupTable_append_right {d d' : DB} {T : String}
    (h : lookupTable d T = none) : lookupTable (d ++ d') T = lookupTable d' T := by
  induction d with
  | nil => rfl
  | cons e es ih =>
    by_cases he : e.1 = T
    · subst he
      rw [show e = (e.1, e.2) from rfl, lookupTable_cons_self] at h
      cases h
    · rw [lookupTable_cons_other he] at h
      rw [List.cons_append, lookupTable_cons_other he]
      exact ih h

theorem lookupTable_setTable_self {d : DB} {T : String} {r rows : DBTable}
    (h : lookupTable d T = some r) :
    lookupTable (setTable d T rows) T = some rows := by
  induction d with
  | nil => cases h
  | cons e es ih =>
    obtain ⟨e1, e2⟩ := e
    unfold setTable
    simp only [List.map_cons]
    by_cases he : e1 = T
    · subst he
      rw [if_pos rfl]
      exact lookupTable_cons_self
    · rw [if_neg he, lookupTable_cons_other he]
      rw [lookupTable_cons_other he] at h
      exact ih h

theorem lookupTable_setTable_other {d : DB} {T u : String} {rows : DBTable}
    (h : u ≠ T) : lookupTable (setTable d u rows) T = lookupTable d T := by
  induction d with
  | nil => rfl
  | cons e es ih =>
    obtain ⟨e1, e2⟩ := e
    unfold setTable
    simp only [List.map_cons]
    by_cases he : e1 = u
    · subst he
      rw [if_pos rfl, lookupTable_cons_other h, lookupTable_cons_other h]
      exact ih
    · rw [if_neg he]
      by_cases heT : e1 = T
      · subst heT
        rw [lookupTable_cons_self, lookupTable_cons_self]
      · rw [lookupTable_cons_other heT, lookupTable_cons_other heT]
        exact ih

theorem names_setTable (d : DB) (u : String) (rows : DBTable) :
    (setTable d u rows).map Prod.fst = d.map Prod.fst := by
  induction d with
  | nil => rfl
  | cons e es ih =>
    obtain ⟨e1, e2⟩ := e
    unfold setTable at ih ⊢
    simp only [List.map_cons]
    by_cases he : e1 = u
    · subst he
      rw [if_pos rfl]
      simp [ih]
    · rw [if_neg he]
      simp [ih]

theorem lookupTable_create_some {d : DB} {T u : String} {r : DBTable}
    (h : lookupTable d T = some r) : lookupTable (createTable d u) T = some r := by
  unfold createTable
  split
  · exact h
  · exact lookupTable_append_left h

theorem lookupTable_create_self {d : DB} {u : String}
    (h : lookupTable d u = none) : lookupTable (createTable d u) u = some [] := by
  unfold createTable
  rw [if_neg (by simp [h])]
  rw [lookupTable_append_right h]
  exact lookupTable_cons_self

theorem lookupTable_create_other {d : DB} {T u : String} (h : u ≠ T) :
    lookupTable (createTable d u) T = lookupTable d T := by
  unfold createTable
  split
  · rfl
  · cases hT : lookupTable d T with
    | some r => exact lookupTable_append_left hT
    | none =>
      rw [lookupTable_append_right hT, lookupTable_cons_other h]
      rfl

theorem insertFrom_self {tgt src : DB} {T : String} {cur srows : DBTable}
    (h1 : lookupTable tgt T = some cur) (h2 : lookupTable src T = some srows) :
    lookupTable (insertFrom tgt src T) T = some (cur ++ srows) := by
  unfold insertFrom
  rw [h1, h2]
  exact lookupTable_setTable_self h1

theorem insertFrom_other {tgt src : DB} {T u : String} (h : u ≠ T) :
    lookupTable (insertFrom tgt src u) T = lookupTable tgt T := by
  unfold insertFrom
  cases lookupTable tgt u with
  | none => rfl
  | some rows =>
    cases lookupTable src u with
    | none => rfl
    | some srows => exact lookupTable_setTable_other h

theorem names_insertFrom (tgt src : DB) (u : String) :
    (insertFrom tgt src u).map Prod.fst = tgt.map Prod.fst := by
  unfold insertFrom
  cases lookupTable tgt u with
  | none => rfl
  | some rows =>
    cases lookupTable src u with
    | none => rfl
    | some srows => exact names_setTable tgt u _

/-! ## Claim C5: schema-creation and row-copy fold lemmas -/

theorem lookup_foldl_create_some {T : String} {r : DBTable} :
    ∀ (ts : List String) (d : DB), lookupTable d T = some r →
      lookupTable (ts.foldl createTable d) T = some r := by
  intro ts
  induction ts with
  | nil => intro d h; exact h
  | cons u us ih =>
    intro d h
    rw [List.foldl_cons]
    exact ih _ (lookupTable_create_some h)

theorem lookup_foldl_create_mem {T : String} :
    ∀ (ts : List String) (d : DB), T ∈ ts → lookupTable d T = none →
      lookupTable (ts.foldl createTable d) T = some [] := by
  intro ts
  induction ts with
  | nil => intro d hmem _; cases hmem
  | cons u us ih =>
    intro d hmem hnone
    rw [List.foldl_cons]
    by_cases hu : u = T
    · subst hu
      exact lookup_foldl_create_some us _ (lookupTable_create_self hnone)
    · rcases List.mem_cons.mp hmem with he | hm
      · exact absurd he.symm hu
      · exact ih _ hm (by rw [lookupTable_create_other hu]; exact hnone)

theorem nodup_names_create {d : DB} (u : String) (h : (d.map Prod.fst).Nodup) :
    ((createTable d u).map Prod.fst).Nodup := by
  unfold createTable
  split
  · exact h
  · rename_i hcond
    have hnone : lookupTable d u = none := by
      cases hl : lookupTable d u with
      | none => rfl
      | some r => rw [hl] at hcond; simp at hcond
    have hnm := lookup_none_iff.mp hnone
    simp [List.nodup_append, h, hnm]

theorem nodup_names_foldl_create :
    ∀ (ts : List String) (d : DB), (d.map Prod.fst).Nodup →
      ((ts.foldl createTable d).map Prod.fst).Nodup := by
  intro ts
  induction ts with
  | nil => intro d h; exact h
  | cons u us ih =>
    intro d h
    rw [List.foldl_cons]
    exact ih _ (nodup_names_create u h)

theorem foldl_insert_not_mem {src : DB} {T : String} :
    ∀ (ts : List String) (acc : DB), T ∉ ts →
      lookupTable (ts.foldl (fun a t => insertFrom a src t) acc) T = lookupTable acc T := by
  intro ts
  induction ts with
  | nil => intro acc _; rfl
  | cons u us ih =>
    intro acc hmem
    rw [List.foldl_cons, ih _ (fun hm => hmem (by simp [hm])),
      insertFrom_other (fun he => hmem (by simp [he]))]

theorem foldl_insert_names {src : DB} :
    ∀ (ts : List String) (acc : DB),
      (ts.foldl (fun a t => insertFrom a src t) acc).map Prod.fst = acc.map Prod.fst := by
  intro ts
  induction ts with
  | nil => intro acc; rfl
  | cons u us ih =>
    intro acc
    rw [List.foldl_cons, ih, names_insertFrom]

theorem foldl_insert_once {src : DB} {T : String} {cur srows : DBTable}
    (hsrc : lookupTable src T = some srows) :
    ∀ (l1 l2 : List String) (acc : DB), T ∉ l1 → T ∉ l2 →
      lookupTable acc T = some cur →
      lookupTable ((l1 ++ T :: l2).foldl (fun a t => insertFrom a src t) acc) T =
        some (cur ++ srows) := by
  intro l1
  induction l1 with
  | nil =>
    intro l2 acc _ h2 hacc
    rw [List.nil_append, List.foldl_cons, foldl_insert_not_mem l2 _ h2]
    exact insertFrom_self hacc hsrc
  | cons u us ih =>
    intro l2 acc h1 h2 hacc
    rw [List.cons_append, List.foldl_cons]
    have hu : u ≠ T := fun he => h1 (by simp [he])
    exact ih l2 _ (fun hm => h1 (by simp [hm])) h2
      (by rw [insertFrom_other hu]; exact hacc)

theorem source_fold_rows {fs : FS} {T : String} {rows : String → DBTable}
    (l1 l2 : List String) (h1 : T ∉ l1) (h2 : T ∉ l2) :
    ∀ (paths : List String) (acc : DB) (cur : DBTable),
      (∀ p ∈ paths, ∃ dp, fs p = FileState.stored dp ∧ lookupTable dp T = some (rows p)) →
      lookupTable acc T = some cur →
      lookupTable (paths.foldl (fun acc p =>
          match fs p with
          | FileState.stored src => (l1 ++ T :: l2).foldl (fun a t => insertFrom a src t) acc
          | _ => acc) acc) T = some (cur ++ paths.flatMap rows) := by
  intro paths
  induction paths with
  | nil => intro acc cur _ hacc; simpa using hacc
  | cons p ps ih =>
    intro acc cur hsrc hacc
    obtain ⟨dp, hfp, hdp⟩ := hsrc p (by simp)
    have hnew := foldl_insert_once hdp l1 l2 acc h1 h2 hacc
    have hrec := ih ((l1 ++ T :: l2).foldl (fun a t => insertFrom a dp t) acc)
      (cur ++ rows p) (fun q hq => hsrc q (by simp [hq])) hnew
    simp only [List.foldl_cons]
    rw [hfp]
    rw [List.flatMap_cons, ← List.append_assoc]
    exact hrec

theorem source_fold_names {fs : FS} (tables : List String) :
    ∀ (paths : List String) (acc : DB),
      (paths.foldl (fun acc p =>
          match fs p with
          | FileState.stored src => tables.foldl (fun a t => insertFrom a src t) acc
          | _ => acc) acc).map Prod.fst = acc.map Prod.fst := by
  intro paths
  induction paths with
  | nil => intro acc; rfl
  | cons p ps ih =>
    intro acc
    simp only [List.foldl_cons]
    rw [ih]
    cases hfp : fs p with
    | missing => rfl
    | corrupt => rfl
    | stored src => exact foldl_insert_names tables acc

/-! ## Claim C5: target-path lemmas -/

theorem data_tempPath (i : Nat) :
    (tempPath i).data = "temp_merge_".data ++ (natRepr i ++ ".sqlite".data) := by
  simp [tempPath, String.data_append]

theorem tempPath_ne_merged (i : Nat) : tempPath i ≠ mergedPath := by
  intro h
  have hd := congrArg String.data h
  rw [data_tempPath,
    show "temp_merge_".data = 't' :: "emp_merge_".data from rfl,
    show mergedPath.data = 'm' :: "erged_db.sqlite".data from rfl,
    List.cons_append] at hd
  injection hd with h1 _
  exact absurd h1 (by decide)

theorem tempPath_inj {i j : Nat} (h : tempPath i = tempPath j) : i = j := by
  have hd := congrArg String.data h
  rw [data_tempPath, data_tempPath] at hd
  exact natRepr_inj (List.append_cancel_right (List.append_cancel_left hd))

theorem refName_tempPath (i : Nat) : refName (tempPath i) = true := by
  unfold refName strContains
  have h2 : isSubstr "temp_merge".data (tempPath i).data = true := by
    rw [data_tempPath,
      show "temp_merge_".data = "temp_merge".data ++ ['_'] from rfl,
      List.append_assoc]
    exact isSubstr_of_isPrefixOf (isPrefixOf_append _ _)
  rw [h2, Bool.or_true]

/-! ## Claim C5: the `merge_batch` row account -/

/-- When a schema reference with table `T` is found and every batch member
is an openable store carrying `T`, `merge_batch` appends each member's
`T`-rows, in order, to the target's `T`-rows (the target's starting
`T`-rows are `cur`, accounting for table creation when enabled). -/
theorem merge_batch_rows {fs : FS} {paths : List String} {target : String} {ct : Bool}
    {dref : DB} {T : String} {rows : String → DBTable} {cur : DBTable}
    (href : findRef fs paths = some dref)
    (hnodup : (dref.map Prod.fst).Nodup)
    (hT : T ∈ dref.map Prod.fst)
    (hsrc : ∀ p ∈ paths, ∃ dp, fs p = FileState.stored dp ∧ lookupTable dp T = some (rows p))
    (htgt : fs target ≠ FileState.corrupt)
    (hcur : lookupTable (if ct then (dref.map Prod.fst).foldl createTable (dbAt fs target)
        else dbAt fs target) T = some cur) :
    ∃ d2, merge_batch fs paths target ct =
        (fun q => if q = target then FileState.stored d2 else fs q, true) ∧
      lookupTable d2 T = some (cur ++ paths.flatMap rows) ∧
      d2.map Prod.fst = (if ct then (dref.map Prod.fst).foldl createTable (dbAt fs target)
        else dbAt fs target).map Prod.fst := by
  obtain ⟨l1, l2, hsplit⟩ := List.append_of_mem hT
  have hnd : T ∉ l1 ∧ T ∉ l2 := by
    rw [hsplit, List.nodup_append] at hnodup
    obtain ⟨h1n, h2n, hdisj⟩ := hnodup
    exact ⟨fun hm => hdisj hm (by simp), (List.nodup_cons.mp h2n).1⟩
  cases htgt0 : fs target with
  | corrupt => exact absurd htgt0 htgt
  | missing =>
    have hdb : dbAt fs target = [] := by unfold dbAt; rw [htgt0]
    rw [hdb] at hcur ⊢
    simp only [merge_batch, htgt0, href]
    refine ⟨_, rfl, ?_, ?_⟩
    · rw [hsplit] at hcur ⊢
      exact source_fold_rows l1 l2 hnd.1 hnd.2 paths _ cur hsrc hcur
    · rw [hsplit]
      exact source_fold_names (l1 ++ T :: l2) paths _
  | stored d0 =>
    have hdb : dbAt fs target = d0 := by unfold dbAt; rw [htgt0]
    rw [hdb] at hcur ⊢
    simp only [merge_batch, htgt0, href]
    refine ⟨_, rfl, ?_, ?_⟩
    · rw [hsplit] at hcur ⊢
      exact source_fold_rows l1 l2 hnd.1 hnd.2 paths _ cur hsrc hcur
    · rw [hsplit]
      exact source_fold_names (l1 ++ T :: l2) paths _

/-! ## Claim C5: the batch loop -/

theorem flatMap_take_add {α β : Type} (f : α → List β) (l : List α) (i B : Nat) :
    (l.take (i + B)).flatMap f = (l.take i).flatMap f ++ ((l.drop i).take B).flatMap f := by
  rw [List.take_add, List.flatMap_append]

theorem n_le_nine_ceil (n : Nat) : n ≤ 9 * ((n + 8) / 9) := by
  have h := Nat.div_add_mod (n + 8) 9
  have h2 : (n + 8) % 9 < 9 := Nat.mod_lt _ (by norm_num)
  omega

theorem one_le_nine_ceil {n : Nat} (h : 0 < n) : 1 ≤ (n + 8) / 9 := by
  rw [Nat.le_div_iff_mul_le (by norm_num)]
  omega

theorem batchStarts_pos {n : Nat} (h : 0 < n) :
    batchStarts n = 0 :: (List.range ((n + 8) / 9 - 1)).map
      (fun a => BATCH_SIZE + BATCH_SIZE * a) := by
  unfold batchStarts
  have hB : BATCH_SIZE = 9 := rfl
  rw [hB]
  have hk : (n + 9 - 1) / 9 = ((n + 8) / 9 - 1) + 1 := by
    have := one_le_nine_ceil h
    have he : n + 9 - 1 = n + 8 := by omega
    rw [he]
    omega
  rw [hk, List.range_succ_eq_map]
  simp only [List.map_cons, List.map_map, Nat.zero_mul]
  congr 1
  apply List.map_congr_left
  intro a _
  simp [Function.comp]
  ring

theorem findRef_found {fs : FS} : ∀ {paths : List String},
    (∀ p ∈ paths, ∃ dp, fs p = FileState.stored dp) →
    (∃ p ∈ paths, refName p = true) →
    ∃ d p, p ∈ paths ∧ fs p = FileState.stored d ∧ findRef fs paths = some d := by
  intro paths
  induction paths with
  | nil => intro _ h; obtain ⟨p, hp, _⟩ := h; cases hp
  | cons p ps ih =>
    intro hst href
    obtain ⟨dp, hdp⟩ := hst p (by simp)
    by_cases hr : refName p
    · refine ⟨dp, p, by simp, hdp, ?_⟩
      unfold findRef
      rw [hdp]
      show (if refName p = true then some dp else findRef fs ps) = some dp
      rw [if_pos hr]
    · have href' : ∃ q ∈ ps, refName q = true := by
        obtain ⟨q, hq, hrq⟩ := href
        rcases List.mem_cons.mp hq with he | hm
        · subst he; exact absurd hrq hr
        · exact ⟨q, hm, hrq⟩
      obtain ⟨d, q, hq, hfq, hfind⟩ := ih (fun q hq => hst q (by simp [hq])) href'
      refine ⟨d, q, by simp [hq], hfq, ?_⟩
      unfold findRef
      rw [hdp]
      show (if refName p = true then some dp else findRef fs ps) = some d
      rw [if_neg hr]
      exact hfind

theorem tempPath_head (i : Nat) : (tempPath i).data.headD ' ' = 't' := by
  rw [data_tempPath]
  rfl

theorem tempPath_ne_of_head {s : String} (h : s.data.headD ' ' ≠ 't') (j : Nat) :
    tempPath j ≠ s := by
  intro he
  apply h
  rw [← he, tempPath_head]

theorem dbAt_stored {fs : FS} {p : String} {d : DB} (h : fs p = FileState.stored d) :
    dbAt fs p = d := by
  unfold dbAt
  rw [h]

/-- One batch-loop iteration at a positive start index `i`: the batch is
merged into the fresh temporary store, which is then folded into the
merged store; the merged store's `T`-rows grow by exactly the batch
members' `T`-rows, sources and later temporaries are untouched. -/
theorem mergeStep_pos_spec {fs : FS} {srcs : List String} {T : String}
    {rows : String → DBTable} {i : Nat} (hi : 0 < i) {fsi : FS} {dmi : DB}
    (hsrc : ∀ p ∈ srcs, ∃ dp, fs p = FileState.stored dp ∧ (dp.map Prod.fst).Nodup ∧
      lookupTable dp T = some (rows p))
    (hmiss : fs mergedPath = FileState.missing)
    (htmp : ∀ j, fs (tempPath j) = FileState.missing)
    (hm : fsi mergedPath = FileState.stored dmi)
    (hrows : lookupTable dmi T = some ((srcs.take i).flatMap rows))
    (hsrcs : ∀ p ∈ srcs, fsi p = fs p)
    (htmps : ∀ j, i ≤ j → fsi (tempPath j) = FileState.missing)
    (hrefb : ∃ p ∈ (srcs.drop i).take BATCH_SIZE, refName p = true) :
    ∃ dmo,
      (mergeStep srcs fsi i) mergedPath = FileState.stored dmo ∧
      lookupTable dmo T = some ((srcs.take (i + BATCH_SIZE)).flatMap rows) ∧
      (∀ p ∈ srcs, (mergeStep srcs fsi i) p = fs p) ∧
      (∀ j, i + BATCH_SIZE ≤ j → (mergeStep srcs fsi i) (tempPath j) = FileState.missing) := by
  have hsub : ∀ p ∈ (srcs.drop i).take BATCH_SIZE, p ∈ srcs :=
    fun p hp => List.drop_subset i srcs (List.take_subset BATCH_SIZE _ hp)
  have hsrcm : ∀ p ∈ srcs, p ≠ mergedPath := by
    intro p hp he
    obtain ⟨dp, hdp, _, _⟩ := hsrc p hp
    rw [he, hmiss] at hdp
    cases hdp
  have hsrct : ∀ p ∈ srcs, ∀ j, p ≠ tempPath j := by
    intro p hp j he
    obtain ⟨dp, hdp, _, _⟩ := hsrc p hp
    rw [he, htmp j] at hdp
    cases hdp
  -- the batch members under fsi
  have hsrc1 : ∀ p ∈ (srcs.drop i).take BATCH_SIZE,
      ∃ dp, fsi p = FileState.stored dp ∧ lookupTable dp T = some (rows p) := by
    intro p hp
    obtain ⟨dp, hdp, _, hl⟩ := hsrc p (hsub p hp)
    exact ⟨dp, by rw [hsrcs p (hsub p hp)]; exact hdp, hl⟩
  -- schema reference for the batch
  obtain ⟨dref, p0, hp0, hfp0, hfind⟩ := findRef_found
    (fun p hp => by obtain ⟨dp, h1, _⟩ := hsrc1 p hp; exact ⟨dp, h1⟩) hrefb
  have hrefdata : (dref.map Prod.fst).Nodup ∧ lookupTable dref T = some (rows p0) := by
    obtain ⟨dp, hdp, hnd, hl⟩ := hsrc p0 (hsub p0 hp0)
    have : fsi p0 = FileState.stored dp := by rw [hsrcs p0 (hsub p0 hp0)]; exact hdp
    rw [hfp0] at this
    cases this
    exact ⟨hnd, hl⟩
  have hT : T ∈ dref.map Prod.fst := mem_names_of_lookup hrefdata.2
  -- first merge: the batch into the fresh temporary store
  have htmpi : fsi (tempPath i) = FileState.missing := htmps i le_rfl
  have hdbtmp : dbAt fsi (tempPath i) = [] := by unfold dbAt; rw [htmpi]
  have hcur1 : lookupTable
      (if true then (dref.map Prod.fst).foldl createTable (dbAt fsi (tempPath i))
        else dbAt fsi (tempPath i)) T = some [] := by
    rw [if_pos rfl, hdbtmp]
    exact lookup_foldl_create_mem _ [] hT rfl
  obtain ⟨d2, heq1, hl2, hn2⟩ := merge_batch_rows hfind hrefdata.1 hT hsrc1
    (by rw [htmpi]; intro hc; cases hc) hcur1
  have hnodup2 : (d2.map Prod.fst).Nodup := by
    rw [hn2, if_pos rfl, hdbtmp]
    exact nodup_names_foldl_create _ [] (by simp)
  -- the updated file system after the first merge
  have hfs1 : (merge_batch fsi ((srcs.drop i).take BATCH_SIZE) (tempPath i) true).1 =
      fun q => if q = tempPath i then FileState.stored d2 else fsi q := by
    rw [heq1]
  -- second merge: the temporary into the merged store
  have hfs1m : (fun q => if q = tempPath i then FileState.stored d2 else fsi q) mergedPath =
      FileState.stored dmi := by
    show (if mergedPath = tempPath i then FileState.stored d2 else fsi mergedPath) =
      FileState.stored dmi
    rw [if_neg (fun he => tempPath_ne_merged i he.symm)]
    exact hm
  have hfs1t : (fun q => if q = tempPath i then FileState.stored d2 else fsi q) (tempPath i) =
      FileState.stored d2 := by simp
  have hfind2 : findRef (fun q => if q = tempPath i then FileState.stored d2 else fsi q)
      [tempPath i] = some d2 := by
    have hred : findRef (fun q => if q = tempPath i then FileState.stored d2 else fsi q)
        [tempPath i] = (if refName (tempPath i) = true then some d2 else none) := by
      unfold findRef
      rw [if_pos rfl]
      rfl
    rw [hred, if_pos (refName_tempPath i)]
  have hT2 : T ∈ d2.map Prod.fst := mem_names_of_lookup hl2
  have hdbm : dbAt (fun q => if q = tempPath i then FileState.stored d2 else fsi q)
      mergedPath = dmi := dbAt_stored hfs1m
  have hcur2 : lookupTable
      (if false = true then
        (d2.map Prod.fst).foldl createTable
          (dbAt (fun q => if q = tempPath i then FileState.stored d2 else fsi q) mergedPath)
      else dbAt (fun q => if q = tempPath i then FileState.stored d2 else fsi q) mergedPath)
      T = some ((srcs.take i).flatMap rows) := by
    show lookupTable
      (dbAt (fun q => if q = tempPath i then FileState.stored d2 else fsi q) mergedPath)
      T = some ((srcs.take i).flatMap rows)
    rw [hdbm]
    exact hrows
  have hsrc2 : ∀ p ∈ [tempPath i], ∃ dp,
      (fun q => if q = tempPath i then FileState.stored d2 else fsi q) p =
        FileState.stored dp ∧
      lookupTable dp T = some ([] ++ ((srcs.drop i).take BATCH_SIZE).flatMap rows) := by
    intro p hp
    simp only [List.mem_singleton] at hp
    subst hp
    exact ⟨d2, hfs1t, hl2⟩
  obtain ⟨d3, heq2, hl3, _⟩ := merge_batch_rows hfind2 hnodup2 hT2 hsrc2
    (fun hc => FileState.noConfusion (hfs1m.symm.trans hc)) hcur2
  -- assemble the step
  have hstep : mergeStep srcs fsi i =
      (merge_batch (fun q => if q = tempPath i then FileState.stored d2 else fsi q)
        [tempPath i] mergedPath false).1 := by
    simp only [mergeStep]
    rw [if_neg (by omega : ¬ i = 0), if_pos hi, hfs1]
  rw [hstep, heq2]
  refine ⟨d3, by simp, ?_, ?_, ?_⟩
  · rw [hl3]
    congr 1
    rw [flatMap_take_add]
    simp
  · intro p hp
    show (if p = mergedPath then FileState.stored d3
      else (fun q => if q = tempPath i then FileState.stored d2 else fsi q) p) = fs p
    rw [if_neg (hsrcm p hp)]
    show (if p = tempPath i then FileState.stored d2 else fsi p) = fs p
    rw [if_neg (fun he => hsrct p hp i he)]
    exact hsrcs p hp
  · intro j hj
    show (if tempPath j = mergedPath then FileState.stored d3
      else (fun q => if q = tempPath i then FileState.stored d2 else fsi q) (tempPath j)) =
      FileState.missing
    rw [if_neg (tempPath_ne_merged j)]
    show (if tempPath j = tempPath i then FileState.stored d2 else fsi (tempPath j)) =
      FileState.missing
    rw [if_neg (fun he => by
      have h1 := tempPath_inj he
      have hB : BATCH_SIZE = 9 := rfl
      omega)]
    exact htmps j (by omega)

/-- The tail of the batch loop, from a positive start index `i` onwards. -/
theorem mergeLoop_spec {fs : FS} {srcs : List String} {T : String} {rows : String → DBTable}
    (hsrc : ∀ p ∈ srcs, ∃ dp, fs p = FileState.stored dp ∧ (dp.map Prod.fst).Nodup ∧
      lookupTable dp T = some (rows p))
    (hmiss : fs mergedPath = FileState.missing)
    (htmp : ∀ j, fs (tempPath j) = FileState.missing) :
    ∀ (t i : Nat) (fsi : FS) (dmi : DB),
      0 < i →
      fsi mergedPath = FileState.stored dmi →
      lookupTable dmi T = some ((srcs.take i).flatMap rows) →
      (∀ p ∈ srcs, fsi p = fs p) →
      (∀ j, i ≤ j → fsi (tempPath j) = FileState.missing) →
      (∀ a, a < t → ∃ p ∈ (srcs.drop (i + BATCH_SIZE * a)).take BATCH_SIZE, refName p = true) →
      srcs.length ≤ i + BATCH_SIZE * t →
      ∃ dm, (((List.range t).map (fun a => i + BATCH_SIZE * a)).foldl (mergeStep srcs) fsi)
          mergedPath = FileState.stored dm ∧
        lookupTable dm T = some (srcs.flatMap rows) := by
  intro t
  induction t with
  | zero =>
    intro i fsi dmi hi hmg hrows hsrcs htmps href hlen
    refine ⟨dmi, by simpa using hmg, ?_⟩
    rw [List.take_of_length_le (by simpa using hlen)] at hrows
    exact hrows
  | succ t ih =>
    intro i fsi dmi hi hmg hrows hsrcs htmps href hlen
    have hlist : (List.range (t + 1)).map (fun a => i + BATCH_SIZE * a) =
        i :: (List.range t).map (fun a => (i + BATCH_SIZE) + BATCH_SIZE * a) := by
      rw [List.range_succ_eq_map]
      simp only [List.map_cons, List.map_map, Nat.mul_zero, Nat.add_zero]
      congr 1
      apply List.map_congr_left
      intro a _
      simp [Function.comp]
      ring
    rw [hlist, List.foldl_cons]
    obtain ⟨dmo, h1, h2, h3, h4⟩ := mergeStep_pos_spec hi hsrc hmiss htmp hmg hrows hsrcs
      htmps (href 0 (by omega) |>.imp (by simp))
    exact ih (i + BATCH_SIZE) (mergeStep srcs fsi i) dmo (by omega) h1 h2 h3 h4
      (fun a ha => by
        have := href (a + 1) (by omega)
        rwa [show i + BATCH_SIZE * (a + 1) = (i + BATCH_SIZE) + BATCH_SIZE * a by ring] at this)
      (by
        rw [show i + BATCH_SIZE + BATCH_SIZE * t = i + BATCH_SIZE * (t + 1) by ring]
        exact hlen)

/-- C5 counterexample: a single source store holding one row of table
`"T"` but whose path contains neither `"FB20.DC.1"` nor `"temp_merge"`:
no schema reference is attached, so the merged store ends up with no
table `"T"` at all — 0 rows instead of the claimed Σn_i = 1. -/
theorem c5_counterexample :
    (merge_database_files (fun p => if p = "a" then FileState.stored [("T", [0])]
        else FileState.missing) ["a"]).1 mergedPath = FileState.stored [] ∧
    lookupTable ([] : DB) "T" = none :=
  ⟨by decide, rfl⟩

/-- C5 (corrected): for every K ≥ 1 source stores, each an openable
database containing table `T` with rows `n_i`, merging yields exactly
Σn_i rows of `T` in the merged store *provided* the merged and temporary
target paths are fresh and every batch of `BATCH_SIZE` sources contains
at least one member whose path passes the schema-reference name filter
(`"FB20.DC.1"`/`"temp_merge"`); without such a member a batch contributes
nothing (see the counterexample). -/
theorem c5_merge_sums (fs : FS) (srcs : List String) (T : String) (rows : String → DBTable)
    (hK : srcs ≠ [])
    (hsrc : ∀ p ∈ srcs, ∃ dp, fs p = FileState.stored dp ∧ (dp.map Prod.fst).Nodup ∧
      lookupTable dp T = some (rows p))
    (hm : fs mergedPath = FileState.missing)
    (htmp : ∀ j, fs (tempPath j) = FileState.missing)
    (href : ∀ i ∈ batchStarts srcs.length,
      ∃ p ∈ (srcs.drop i).take BATCH_SIZE, refName p = true) :
    ∃ dm, (merge_database_files fs srcs).1 mergedPath = FileState.stored dm ∧
      lookupTable dm T = some (srcs.flatMap rows) ∧
      (srcs.flatMap rows).length = (srcs.map (fun p => (rows p).length)).sum := by
  have hn : 0 < srcs.length := List.length_pos.mpr hK
  have hlen : (srcs.flatMap rows).length = (srcs.map (fun p => (rows p).length)).sum := by
    rw [List.length_flatMap]
    rfl
  have hsrcm : ∀ p ∈ srcs, p ≠ mergedPath := by
    intro p hp he
    obtain ⟨dp, hdp, _, _⟩ := hsrc p hp
    rw [he, hm] at hdp
    cases hdp
  -- batch 0
  have hstep0 : mergeStep srcs fs 0 = (merge_batch fs (srcs.take BATCH_SIZE) mergedPath true).1 := by
    simp only [mergeStep]
    rw [if_pos trivial, List.drop_zero, if_neg (by omega : ¬ 0 < 0)]
  have hsub0 : ∀ p ∈ srcs.take BATCH_SIZE, p ∈ srcs := fun p hp => List.take_subset _ _ hp
  have hsrc0 : ∀ p ∈ srcs.take BATCH_SIZE,
      ∃ dp, fs p = FileState.stored dp ∧ lookupTable dp T = some (rows p) := by
    intro p hp
    obtain ⟨dp, h1, _, h3⟩ := hsrc p (hsub0 p hp)
    exact ⟨dp, h1, h3⟩
  have h0mem : (0 : Nat) ∈ batchStarts srcs.length := by
    rw [batchStarts_pos hn]
    simp
  have h0ref : ∃ p ∈ srcs.take BATCH_SIZE, refName p = true := by
    have h1 := href 0 h0mem
    rwa [List.drop_zero] at h1
  obtain ⟨dref, p0, hp0, hfp0, hfind⟩ := findRef_found
    (fun p hp => by obtain ⟨dp, h1, _⟩ := hsrc0 p hp; exact ⟨dp, h1⟩) h0ref
  have hrefdata : (dref.map Prod.fst).Nodup ∧ lookupTable dref T = some (rows p0) := by
    obtain ⟨dp, hdp, hnd, hl⟩ := hsrc p0 (hsub0 p0 hp0)
    rw [hfp0] at hdp
    cases hdp
    exact ⟨hnd, hl⟩
  have hT0 : T ∈ dref.map Prod.fst := mem_names_of_lookup hrefdata.2
  have hdb0 : dbAt fs mergedPath = [] := by unfold dbAt; rw [hm]
  have hcur0 : lookupTable
      (if true = true then (dref.map Prod.fst).foldl createTable (dbAt fs mergedPath)
        else dbAt fs mergedPath) T = some [] := by
    show lookupTable ((dref.map Prod.fst).foldl createTable (dbAt fs mergedPath)) T = some []
    rw [hdb0]
    exact lookup_foldl_create_mem _ [] hT0 rfl
  obtain ⟨d2, heq1, hl2, _⟩ := merge_batch_rows hfind hrefdata.1 hT0 hsrc0
    (fun hc => FileState.noConfusion (hm.symm.trans hc)) hcur0
  -- hand over to the loop
  have hm0 : (fun q => if q = mergedPath then FileState.stored d2 else fs q) mergedPath =
      FileState.stored d2 := by simp
  have hrows0 : lookupTable d2 T = some ((srcs.take BATCH_SIZE).flatMap rows) := by
    rw [hl2]
    simp
  have hsrcs0 : ∀ p ∈ srcs,
      (fun q => if q = mergedPath then FileState.stored d2 else fs q) p = fs p := by
    intro p hp
    show (if p = mergedPath then FileState.stored d2 else fs p) = fs p
    rw [if_neg (hsrcm p hp)]
  have htmps0 : ∀ j, BATCH_SIZE ≤ j →
      (fun q => if q = mergedPath then FileState.stored d2 else fs q) (tempPath j) =
        FileState.missing := by
    intro j _
    show (if tempPath j = mergedPath then FileState.stored d2 else fs (tempPath j)) =
      FileState.missing
    rw [if_neg (tempPath_ne_merged j)]
    exact htmp j
  have href0 : ∀ a, a < (srcs.length + 8) / 9 - 1 →
      ∃ p ∈ (srcs.drop (BATCH_SIZE + BATCH_SIZE * a)).take BATCH_SIZE, refName p = true := by
    intro a ha
    have hk1 := one_le_nine_ceil hn
    have hmem : (a + 1) * BATCH_SIZE ∈ batchStarts srcs.length := by
      unfold batchStarts
      refine List.mem_map.mpr ⟨a + 1, List.mem_range.mpr ?_, rfl⟩
      have hB : BATCH_SIZE = 9 := rfl
      rw [hB, show srcs.length + 9 - 1 = srcs.length + 8 by omega]
      omega
    have h1 := href _ hmem
    rwa [show (a + 1) * BATCH_SIZE = BATCH_SIZE + BATCH_SIZE * a by ring] at h1
  have hlen0 : srcs.length ≤ BATCH_SIZE + BATCH_SIZE * ((srcs.length + 8) / 9 - 1) := by
    have hB : BATCH_SIZE = 9 := rfl
    have h1 := n_le_nine_ceil srcs.length
    have hk1 := one_le_nine_ceil hn
    rw [hB]
    omega
  obtain ⟨dm, hdm1, hdm2⟩ := mergeLoop_spec hsrc hm htmp ((srcs.length + 8) / 9 - 1)
    BATCH_SIZE (fun q => if q = mergedPath then FileState.stored d2 else fs q) d2
    (by norm_num [BATCH_SIZE]) hm0 hrows0 hsrcs0 htmps0 href0 hlen0
  refine ⟨dm, ?_, hdm2, hlen⟩
  unfold merge_database_files
  rw [batchStarts_pos hn]
  show ((0 :: (List.range ((srcs.length + 8) / 9 - 1)).map
      (fun a => BATCH_SIZE + BATCH_SIZE * a)).foldl (mergeStep srcs) fs) mergedPath =
    FileState.stored dm
  rw [List.foldl_cons, hstep0, heq1]
  exact hdm1

/-- C5 witness: one reference-named source storing two rows of table
`"T"` over an otherwise empty file system satisfies every hypothesis of
`c5_merge_sums`, and the merged store holds exactly those two rows. -/
theorem c5_witness :
    (["FB20.DC.1a"] : List String) ≠ [] ∧
    ∃ dm, (merge_database_files
        (fun p => if p = "FB20.DC.1a" then FileState.stored [("T", [1, 2])]
          else FileState.missing) ["FB20.DC.1a"]).1 mergedPath = FileState.stored dm ∧
      lookupTable dm "T" =
        some ((["FB20.DC.1a"] : List String).flatMap (fun _ => ([1, 2] : DBTable))) ∧
      ((["FB20.DC.1a"] : List String).flatMap (fun _ => ([1, 2] : DBTable))).length =
        ((["FB20.DC.1a"] : List String).map (fun _ => ([1, 2] : DBTable).length)).sum := by
  refine ⟨by decide, ?_⟩
  exact c5_merge_sums
    (fun p => if p = "FB20.DC.1a" then FileState.stored [("T", [1, 2])] else FileState.missing)
    ["FB20.DC.1a"] "T" (fun _ => ([1, 2] : DBTable))
    (by decide)
    (by
      intro p hp
      simp only [List.mem_singleton] at hp
      subst hp
      exact ⟨[("T", [1, 2])], rfl, by decide, rfl⟩)
    rfl
    (fun j => by
      show (if tempPath j = "FB20.DC.1a" then FileState.stored [("T", [1, 2])]
        else FileState.missing) = FileState.missing
      rw [if_neg (tempPath_ne_of_head (by decide) j)])
    (by
      intro i hi
      have hb : batchStarts (["FB20.DC.1a"] : List String).length = [0] := by decide
      rw [hb] at hi
      have h0 : i = 0 := by simpa using hi
      subst h0
      exact ⟨"FB20.DC.1a", by decide, by decide⟩)

end Shearer
